import Mathlib

/-!
Verification of the EPG backend automation scripts.

This file gives a shallow embedding, in Lean 4, of the pure decision logic of
the repository's scripts:

* the Normalizer pipeline (`tokensOf`, `keyOf`) shared by the parser and the
  matcher (sources: `src/unnamed/part_005`, `src/unnamed/part_004`,
  `src/scripts/mx-scrape-and-match.mjs`; the three copies differ only in the
  stop-word set, which is a parameter here);
* the tiered channel matcher `findMatch` (exact / anchor / subset / fuzzy)
  of `src/unnamed/part_005` / `part_004`, and the brand-weighted matcher
  `findMatchByName` / `scorePair` of `src/scripts/mx-scrape-and-match.mjs`;
* the XMLTV timestamp parser `parseXmltvToISO` of
  `src/scripts/mx-scrape-and-match.mjs` (modelled as the instant in epoch
  milliseconds that the returned ISO string denotes);
* the programme-retention decisions of the three streaming EPG parsers;
* the bounded `<display-name>` text accumulator;
* the master-playlist variant selection `bestFromMaster` and the probes
  `probeM3U8` / `probePlaylist` of `src/scripts/latam-iptvcat.mjs`;
* the upsert-with-insert-fallback batch writers `savePrograms` / `saveRows`.

Modelling conventions.  JavaScript strings are Lean `String`s and string
indices count characters (the sources only slice at ASCII positions, where
UTF-16 units and characters agree).  Fractional scores are `ℚ` (the sources
use IEEE doubles; every comparison proved or refuted here is decided at
rational values far from the double rounding error of the constants
involved).  JS `Set` iteration order is insertion order, modelled by
`List.eraseDups` / duplicate-free lists.  `Map` is an association list with
first-binding-wins lookup.  Effects (network, database) are modelled by
passing the outcome of each external call as an explicit argument.

Unicode: `String.prototype.toLowerCase` and the `NFD`-decompose-and-strip
step of `stripAccents` are modelled over ASCII plus the accented Latin
letters that actually occur in the scripts' data (á é í ó ú ü ñ and their
upper-case forms); on other code points the model is the identity.
-/

namespace Epg

/-! ### Character helpers (JS regex character classes) -/

def isAsciiLowerCh (c : Char) : Bool := 'a' ≤ c && c ≤ 'z'

def isAsciiUpperCh (c : Char) : Bool := 'A' ≤ c && c ≤ 'Z'

def isAsciiDigitCh (c : Char) : Bool := '0' ≤ c && c ≤ '9'

/-- JS regex `\w` (ASCII word character). -/
def isWordCh (c : Char) : Bool :=
  isAsciiLowerCh c || isAsciiUpperCh c || isAsciiDigitCh c || c == '_'

/-- JS regex `\s` (the whitespace characters occurring in this data). -/
def isWsCh (c : Char) : Bool :=
  c == ' ' || c == '\t' || c == '\n' || c == '\r' || c == '\x0b' || c == '\x0c'

/-- JS `[a-z0-9]` (the class kept by the tokenizer's final cleanup). -/
def isLowerAlnumCh (c : Char) : Bool := isAsciiLowerCh c || isAsciiDigitCh c

/-- Modelled from JS `String.prototype.toLowerCase` restricted to ASCII and
the accented Latin capitals used by this repository's data. -/
def jsLowerCh (c : Char) : Char :=
  if isAsciiUpperCh c then Char.ofNat (c.toNat + 32)
  else if c == 'Á' then 'á' else if c == 'É' then 'é'
  else if c == 'Í' then 'í' else if c == 'Ó' then 'ó'
  else if c == 'Ú' then 'ú' else if c == 'Ü' then 'ü'
  else if c == 'Ñ' then 'ñ' else c

/-- JS `String.prototype.toUpperCase` restricted to ASCII (used only on
playlist attribute keys, which are ASCII). -/
def jsUpperCh (c : Char) : Char :=
  if isAsciiLowerCh c then Char.ofNat (c.toNat - 32) else c

/-- Modelled from `stripAccents`:
`String(s).normalize('NFD').replace(/\p{Diacritic}+/gu, '')`, restricted to
the accented Latin letters used by this repository's data. -/
def foldAccentCh (c : Char) : Char :=
  if c == 'á' then 'a' else if c == 'é' then 'e' else if c == 'í' then 'i'
  else if c == 'ó' then 'o' else if c == 'ú' then 'u' else if c == 'ü' then 'u'
  else if c == 'ñ' then 'n'
  else if c == 'Á' then 'A' else if c == 'É' then 'E' else if c == 'Í' then 'I'
  else if c == 'Ó' then 'O' else if c == 'Ú' then 'U' else if c == 'Ü' then 'U'
  else if c == 'Ñ' then 'N' else c

/-! ### String helpers (JS string methods) -/

/-- Does `pat` occur at the head of `l`? (JS `String.prototype.startsWith`
at index 0, on character lists.) -/
def leadMatch : List Char → List Char → Bool
  | [], _ => true
  | _ :: _, [] => false
  | a :: as, b :: bs => a == b && leadMatch as bs

/-- Does `needle` occur anywhere in `hay`? (JS `String.prototype.includes` /
`RegExp.prototype.test` with a literal pattern.) -/
def subOccurs (needle : List Char) : List Char → Bool
  | [] => needle.isEmpty
  | c :: cs => leadMatch needle (c :: cs) || subOccurs needle cs

def strStarts (pat s : String) : Bool := leadMatch pat.data s.data

def strHasSub (needle s : String) : Bool := subOccurs needle.data s.data

def jsLowerStr (s : String) : String := ⟨s.data.map jsLowerCh⟩

/-- JS `String.prototype.trim` (drop leading and trailing whitespace). -/
def jsTrim (s : String) : String :=
  ⟨((s.data.dropWhile isWsCh).reverse.dropWhile isWsCh).reverse⟩

/-- JS `Array.prototype.join('')` on an array of strings. -/
def strJoin : List String → String
  | [] => ""
  | s :: ss => s ++ strJoin ss

/-- Split a character list at every occurrence of `sep`
(JS `String.prototype.split` with a one-character separator). -/
def splitCharGo (sep : Char) : List Char → List Char → List (List Char)
  | [], acc => [acc.reverse]
  | c :: cs, acc =>
    if c == sep then acc.reverse :: splitCharGo sep cs []
    else splitCharGo sep cs (c :: acc)

def splitChar (sep : Char) (s : String) : List String :=
  (splitCharGo sep s.data []).map (fun l => ⟨l⟩)

/-- Drop one trailing `'\r'`, if present. -/
def dropOneCr (l : List Char) : List Char :=
  match l.reverse with
  | '\r' :: rest => rest.reverse
  | _ => l

/-- Re-attach the `\r` handling of `/\r?\n/` to every piece that was
followed by a separator (all but the last). -/
def splitLinesGo : List String → List String
  | [] => []
  | [x] => [x]
  | x :: xs => (⟨dropOneCr x.data⟩ : String) :: splitLinesGo xs

/-- JS `String.prototype.split(/\r?\n/)`: split at each `'\n'`, dropping one
`'\r'` immediately before it. -/
def splitLinesJs (s : String) : List String :=
  splitLinesGo (splitChar '\n' s)

/-- The maximal runs of `s`'s characters on which `p` is constant, tagged
with the value of `p` there (used to model JS regex run replacements). -/
def charRuns (p : Char → Bool) (l : List Char) : List (List Char) :=
  l.splitBy (fun a b => p a == p b)

/-! ### Normalizer: `normalizeNumerals` -/

/-- The spelled-out-numeral table of `normalizeNumerals`. -/
def numeralMap (w : String) : Option String :=
  if w = "uno" then some "1" else if w = "dos" then some "2"
  else if w = "tres" then some "3" else if w = "cuatro" then some "4"
  else if w = "cinco" then some "5" else if w = "seis" then some "6"
  else if w = "siete" then some "7" else if w = "ocho" then some "8"
  else if w = "nueve" then some "9" else if w = "diez" then some "10"
  else if w = "once" then some "11" else if w = "doce" then some "12"
  else if w = "trece" then some "13" else none

/-- `normalizeNumerals`: replace `\b(uno|dos|…|trece)\b` (case-insensitive)
with the digit string.  Because `\b` demands a non-word character on both
sides, exactly the maximal `\w`-runs equal to a numeral word are replaced. -/
def normalizeNumerals (s : String) : String :=
  ⟨(charRuns isWordCh s.data).flatMap (fun run =>
    if run.all isWordCh then
      match numeralMap ⟨run.map jsLowerCh⟩ with
      | some d => d.data
      | none => run
    else run)⟩

/-- `stripAccents` (applied character-wise, see the header note). -/
def stripAccents (s : String) : String := ⟨s.data.map foldAccentCh⟩

/-! ### Normalizer: `dropTimeshift`

`dropTimeshift` applies four global regex replacements in order, then
collapses `\s{2,}` to a single space and trims.  Each replacement is a
left-to-right scan that removes every match and resumes after it; the
matchers below consume at least one character whenever they succeed. -/

/-- Word-boundary check for the position after a match: the next character
must not be a word character (or the string ends). -/
def boundaryAfter : List Char → Bool
  | [] => true
  | c :: _ => !isWordCh c

/-- The `(?:h|hora|horas)\b` alternation (case-insensitive), alternatives
tried in source order; returns the rest of the input after the match. -/
def matchHoraAlt (l : List Char) : Option (List Char) :=
  match l with
  | c :: rest =>
    if jsLowerCh c == 'h' then
      if boundaryAfter rest then some rest
      else
        match rest with
        | o :: r :: a :: rest2 =>
          if jsLowerCh o == 'o' && jsLowerCh r == 'r' && jsLowerCh a == 'a' then
            if boundaryAfter rest2 then some rest2
            else
              match rest2 with
              | s2 :: rest3 =>
                if jsLowerCh s2 == 's' && boundaryAfter rest3 then some rest3 else none
              | [] => none
          else none
        | _ => none
    else none
  | [] => none

/-- Matcher for `(?:[-+]\s*\d+\s*(?:h|hora|horas)\b)`. -/
def matchShiftSign (l : List Char) : Option (List Char) :=
  match l with
  | c :: cs =>
    if c == '+' || c == '-' then
      let s1 := cs.dropWhile isWsCh
      let digits := s1.takeWhile isAsciiDigitCh
      if digits.isEmpty then none
      else matchHoraAlt ((s1.dropWhile isAsciiDigitCh).dropWhile isWsCh)
    else none
  | [] => none

/-- Matcher for `\d+\s*horas?\b` after the leading `\b` has been checked by
the scanner; `horas?` is greedy and the trailing `\b` forces the `s` form
whenever an `s` follows. -/
def matchNHoras (l : List Char) : Option (List Char) :=
  let digits := l.takeWhile isAsciiDigitCh
  if digits.isEmpty then none
  else
    match (l.dropWhile isAsciiDigitCh).dropWhile isWsCh with
    | h :: o :: r :: a :: rest =>
      if jsLowerCh h == 'h' && jsLowerCh o == 'o' && jsLowerCh r == 'r'
          && jsLowerCh a == 'a' then
        match rest with
        | s2 :: rest2 =>
          if jsLowerCh s2 == 's' then
            if boundaryAfter rest2 then some rest2 else none
          else if boundaryAfter rest then some rest else none
        | [] => some []
      else none
    | _ => none

/-- Matcher for `\(\s*\d+\s*horas?\s*\)`. -/
def matchParenHoras (l : List Char) : Option (List Char) :=
  match l with
  | '(' :: cs =>
    let s1 := (cs.dropWhile isWsCh).takeWhile isAsciiDigitCh
    if s1.isEmpty then none
    else
      match ((cs.dropWhile isWsCh).dropWhile isAsciiDigitCh).dropWhile isWsCh with
      | h :: o :: r :: a :: rest =>
        if jsLowerCh h == 'h' && jsLowerCh o == 'o' && jsLowerCh r == 'r'
            && jsLowerCh a == 'a' then
          let rest2 := match rest with
            | s2 :: tl => if jsLowerCh s2 == 's' then tl else rest
            | [] => rest
          match rest2.dropWhile isWsCh with
          | ')' :: tl2 => some tl2
          | _ => none
        else none
      | _ => none
  | _ => none

/-- Matcher for `time\s*shift` after the leading `\b`; requires the
trailing `\b`. -/
def matchTimeShift (l : List Char) : Option (List Char) :=
  match l with
  | t :: i :: m :: e :: rest =>
    if jsLowerCh t == 't' && jsLowerCh i == 'i' && jsLowerCh m == 'm'
        && jsLowerCh e == 'e' then
      match rest.dropWhile isWsCh with
      | s2 :: h :: i2 :: f :: t2 :: rest2 =>
        if jsLowerCh s2 == 's' && jsLowerCh h == 'h' && jsLowerCh i2 == 'i'
            && jsLowerCh f == 'f' && jsLowerCh t2 == 't' && boundaryAfter rest2 then
          some rest2
        else none
      | _ => none
    else none
  | _ => none

/-- Left-to-right remove-all-matches scan (JS `String.prototype.replace`
with a `g` regex and empty replacement), with explicit fuel so that the
recursion is structural (the fuel below always suffices: every successful
match consumes at least one character).  The `prevWord` flag carries the
word-ness of the previous character of the original string, for patterns
with a leading `\b`; matchers that need no such boundary ignore it. -/
def scanRemoveGo (matcher : Bool → List Char → Option (List Char)) :
    Nat → Bool → List Char → List Char
  | 0, _, l => l
  | _ + 1, _, [] => []
  | fuel + 1, prevWord, c :: cs =>
    match matcher prevWord (c :: cs) with
    | some rest =>
      if rest.length < cs.length + 1 then scanRemoveGo matcher fuel true rest
      else c :: scanRemoveGo matcher fuel (isWordCh c) cs
    | none => c :: scanRemoveGo matcher fuel (isWordCh c) cs

def scanRemove (matcher : Bool → List Char → Option (List Char))
    (prevWord : Bool) (l : List Char) : List Char :=
  scanRemoveGo matcher (l.length + 1) prevWord l

/-- Collapse `\s{2,}` into a single `' '` (runs of length 1 are kept). -/
def collapseWs (s : String) : String :=
  ⟨(charRuns isWsCh s.data).flatMap (fun run =>
    if run.all isWsCh && 2 ≤ run.length then [' '] else run)⟩

/-- `dropTimeshift`, assembled from the four scans above. -/
def dropTimeshift (s : String) : String :=
  let p1 := scanRemove (fun _ l => matchShiftSign l) false s.data
  let p2 := scanRemove
    (fun prevWord l => if prevWord then none else matchNHoras l) false p1
  let p3 := scanRemove (fun _ l => matchParenHoras l) false p2
  let p4 := scanRemove
    (fun prevWord l => if prevWord then none else matchTimeShift l) false p3
  jsTrim (collapseWs ⟨p4⟩)

/-! ### Normalizer: `stripCountryTag`, `tokensOf`, `keyOf` -/

/-- One alternative of the country-tag pattern, matched to the end:
`pat` then `\s*$`. -/
def litThenWsEnd (pat : List Char) (l : List Char) : Bool :=
  match pat, l with
  | [], rest => (rest.dropWhile isWsCh).isEmpty
  | p :: ps, c :: cs => jsLowerCh c == p && litThenWsEnd ps cs
  | _ :: _, [] => false

/-- Does `(\.(mx|us)|\s+\(?mx\)?|\s+m[eé]xico|\s+usa|\s+eeuu)\s*$` match
starting exactly here?  (`é` is written in its folded form: the tokenizer
applies this after `stripAccents`, and on raw names the accented branch
behaves identically through `jsLowerCh`-insensitive comparison of `e`.) -/
def countryTagHere (l : List Char) : Bool :=
  (match l with
   | '.' :: rest => litThenWsEnd "mx".data rest || litThenWsEnd "us".data rest
   | _ => false) ||
  (match l with
   | c :: rest =>
     if isWsCh c then
       let body := rest.dropWhile isWsCh
       (match body with
        | '(' :: b2 =>
          litThenWsEnd "mx)".data b2 || litThenWsEnd "mx".data b2
        | _ => litThenWsEnd "mx)".data body || litThenWsEnd "mx".data body) ||
       litThenWsEnd "mexico".data body || litThenWsEnd "méxico".data body ||
       litThenWsEnd "usa".data body || litThenWsEnd "eeuu".data body
     else false
   | [] => false)

/-- Cut the string at the leftmost position where the country-tag pattern
matches to the end, then trim (JS `replace(…, '').trim()`). -/
def cutCountryTag : List Char → List Char
  | [] => []
  | c :: cs => if countryTagHere (c :: cs) then [] else c :: cutCountryTag cs

/-- `stripCountryTag` of `part_005` (= `stripCountryTail` of `part_004` and
`mx-scrape-and-match.mjs`; the three sources are textually identical). -/
def stripCountryTag (s : String) : String := jsTrim ⟨cutCountryTag s.data⟩

/-- `replace(/&/g, ' and ')`. -/
def replaceAmp (s : String) : String :=
  ⟨s.data.flatMap (fun c => if c == '&' then " and ".data else [c])⟩

/-- `replace(/[^a-z0-9]+/g, ' ')`: each maximal run of characters outside
`[a-z0-9]` becomes one space. -/
def squashNonAlnum (s : String) : String :=
  ⟨(charRuns isLowerAlnumCh s.data).flatMap (fun run =>
    if run.all isLowerAlnumCh then run else [' '])⟩

/-- `split(/\s+/)` of an already-trimmed string: the maximal non-whitespace
runs. -/
def splitWsRuns (s : String) : List String :=
  (charRuns isWsCh s.data).filterMap (fun run =>
    if run.all isWsCh then none else some ⟨run⟩)

/-- `tokensOf`, parameterized by the stop-word set (the only difference
between the copies in `part_005`/`part_004` and
`mx-scrape-and-match.mjs`). -/
def tokensOfWith (stop : List String) (s : String) : List String :=
  if s = "" then []
  else
    let plain := stripAccents (normalizeNumerals (jsLowerStr s))
    let plain := dropTimeshift plain
    let plain := stripCountryTag plain
    let plain := jsTrim (squashNonAlnum (replaceAmp plain))
    (splitWsRuns plain).filter (fun t => t != "" && !stop.contains t)

/-- The stop-word set of `part_005` and `part_004`. -/
def STOP : List String :=
  ["canal", "tv", "television", "hd", "sd", "mx", "mexico", "méxico",
   "hora", "horas", "us", "usa", "eeuu"]

/-- The stop-word set of `mx-scrape-and-match.mjs` (adds articles and
`channel`). -/
def STOPMX : List String :=
  ["canal", "tv", "television", "hd", "sd", "mx", "mexico", "méxico",
   "hora", "horas", "us", "usa", "eeuu", "el", "la", "los", "las", "de",
   "del", "y", "en", "the", "channel"]

/-- `tokensOf` of `part_005` / `part_004`. -/
def tokensOf (s : String) : List String := tokensOfWith STOP s

/-- `tokensOf` of `mx-scrape-and-match.mjs`. -/
def tokensOfMx (s : String) : List String := tokensOfWith STOPMX s

/-- JS default string comparison (lexicographic by code unit; the tokens
compared here are ASCII, where code units and code points agree). -/
def jsStrLe : List Char → List Char → Bool
  | [], _ => true
  | _ :: _, [] => false
  | a :: as, b :: bs =>
    if a.toNat < b.toNat then true
    else if b.toNat < a.toNat then false
    else jsStrLe as bs

/-- JS `Array.prototype.sort()` (default comparator, stable) as a stable
insertion sort. -/
def insStr (v : String) : List String → List String
  | [] => [v]
  | w :: ws => if jsStrLe v.data w.data then v :: w :: ws else w :: insStr v ws

def sortStrs : List String → List String
  | [] => []
  | s :: ss => insStr s (sortStrs ss)

/-- `keyOf(s)`: `Array.from(new Set(tokensOf(s))).sort().join(' ')`
(first-occurrence de-duplication, JS default lexicographic sort). -/
def keyOfWith (stop : List String) (s : String) : String :=
  String.intercalate " " (sortStrs ((tokensOfWith stop s).eraseDups))

def keyOf (s : String) : String := keyOfWith STOP s

def keyOfMx (s : String) : String := keyOfWith STOPMX s

/-! ### Channel matcher (`findMatch` of `part_005` / `part_004`) -/

/-- An EPG Channel Entry as built by the stream parsers:
`{ id, names: [...], tokenSet: Set }`.  `tokenSet` is a JS `Set`, modelled
as its insertion-order element list (duplicate-free by construction);
`.size` is then the list length. -/
structure Entry where
  id : String
  names : List String
  tokenSet : List String
deriving DecidableEq, Repr

/-- A Match Result `{ entry, score, method }`. -/
structure MatchResult where
  entry : Option Entry
  score : ℚ
  method : String
deriving DecidableEq, Repr

/-- JS `Map.prototype.get` on an association list (keys are unique by
construction: insertions are guarded by `!nameMap.has(k)`). -/
def lookupName (m : List (String × Entry)) (k : String) : Option Entry :=
  (m.find? (fun p => p.1 == k)).map Prod.snd

/-- `FUZZY_MIN` at its default configuration (`'0.45'`). -/
def FUZZY_MIN : ℚ := 45 / 100

/-- `jaccard(aTokens, bTokens)`: intersection over union of the two token
sets, with the `|| 1` guard mapping an empty union to score 0. -/
def jaccard (aTokens bTokens : List String) : ℚ :=
  let A := aTokens.eraseDups
  let B := bTokens.eraseDups
  let inter := (A.filter (fun t => B.contains t)).length
  let denom := A.length + B.length - inter
  if denom = 0 then 0 else (inter : ℚ) / (denom : ℚ)

/-- The anchor tier: if the candidate has exactly one token, the first
entry whose token set contains it. -/
def anchorPick (sTok : List String) (entries : List Entry) : Option Entry :=
  if sTok.length = 1 then
    entries.find? (fun e => e.tokenSet.contains (sTok.headD ""))
  else none

/-- `allIn`: every candidate token is in the entry's token set. -/
def entryAllIn (sTok : List String) (e : Entry) : Bool :=
  sTok.all (fun t => e.tokenSet.contains t)

/-- One iteration of the subset scan:
`if (allIn && E.size < subsetBestSize) { subsetBest = e; … }`. -/
def subsetStep (sTok : List String) (acc : Option (Entry × Nat)) (e : Entry) :
    Option (Entry × Nat) :=
  if entryAllIn sTok e && (match acc with
                           | none => true
                           | some (_, sz) => decide (e.tokenSet.length < sz)) then
    some (e, e.tokenSet.length)
  else acc

/-- The subset tier scan: `allIn && E.size < subsetBestSize` with
`subsetBestSize` starting at `Infinity` (modelled by `none`). -/
def subsetPick (sTok : List String) (entries : List Entry) : Option Entry :=
  (entries.foldl (subsetStep sTok) none).map Prod.fst

/-- One iteration of the fuzzy best-score scan:
`if (score > bestScore) { bestScore = score; best = e; }`. -/
def bestStep (acc : Option Entry × ℚ) (p : Entry × ℚ) : Option Entry × ℚ :=
  if acc.2 < p.2 then (some p.1, p.2) else acc

/-- The strict-improvement best-score fold shared by the fuzzy tiers,
starting from `best = null, bestScore = 0`. -/
def bestOver (pairs : List (Entry × ℚ)) : Option Entry × ℚ :=
  pairs.foldl bestStep (none, 0)

/-- The `(entry, score)` pairs scanned by `part_005`'s fuzzy tier:
every name of every entry, scored by plain Jaccard. -/
def fuzzyPairs (sTokArr : List String) (entries : List Entry) : List (Entry × ℚ) :=
  entries.flatMap (fun e => e.names.map (fun nm => (e, jaccard sTokArr (tokensOf nm))))

/-- `findMatch(channelName, nameKey, nameMap, entries)` of `part_005`
(lines 347–380; `part_004` lines 323–341 are the same logic). -/
def findMatch (channelName nameKey : String) (nameMap : List (String × Entry))
    (entries : List Entry) : MatchResult :=
  match lookupName nameMap nameKey with
  | some e => ⟨some e, 1, "exact"⟩
  | none =>
    let sTokArr := tokensOf channelName
    let sTok := sTokArr.eraseDups
    match anchorPick sTok entries with
    | some e => ⟨some e, 99 / 100, "anchor"⟩
    | none =>
      match subsetPick sTok entries with
      | some e => ⟨some e, 9 / 10, "subset"⟩
      | none =>
        let best := bestOver (fuzzyPairs sTokArr entries)
        match best.1 with
        | some e => if FUZZY_MIN ≤ best.2 then ⟨some e, best.2, "fuzzy"⟩
                    else ⟨none, 0, "none"⟩
        | none => ⟨none, 0, "none"⟩

/-! ### Brand-weighted matcher (`mx-scrape-and-match.mjs`) -/

/-- The curated brand vocabulary `BRAND`. -/
def BRAND : List String :=
  ["azteca", "adn", "milenio", "fox", "sports", "premium", "estrellas",
   "teleformula", "maria", "vision", "las"]

/-- `brandHits`: shared tokens that belong to the brand vocabulary. -/
def brandHits (aTokens bTokens : List String) : Nat :=
  let A := aTokens.eraseDups
  let B := bTokens.eraseDups
  (A.filter (fun t => BRAND.contains t && B.contains t)).length

/-- `scorePair(aTokens, bTokens)`: Jaccard plus
`Math.min(brandHits, 3) * 0.05` (so the bonus is capped at `+0.15`). -/
def scorePair (aTokens bTokens : List String) : ℚ :=
  jaccard aTokens bTokens + (min (brandHits aTokens bTokens) 3 : ℚ) * (5 / 100)

/-- The `(entry, score)` pairs scanned by `findMatchByName`. -/
def brandPairs (sTokArr : List String) (entries : List Entry) : List (Entry × ℚ) :=
  entries.flatMap (fun e =>
    e.names.map (fun nm => (e, scorePair sTokArr (tokensOfMx nm))))

/-- `findMatchByName(channelName, nameKey, nameMap, entries)` of
`mx-scrape-and-match.mjs` (lines 489–502): exact key lookup, then the
brand-weighted fuzzy scan accepted at `FUZZY_MIN - 0.05`. -/
def findMatchByName (channelName nameKey : String)
    (nameMap : List (String × Entry)) (entries : List Entry) : MatchResult :=
  match lookupName nameMap nameKey with
  | some e => ⟨some e, 1, "exact"⟩
  | none =>
    let sTokArr := tokensOfMx channelName
    let best := bestOver (brandPairs sTokArr entries)
    match best.1 with
    | some e => if FUZZY_MIN - 5 / 100 ≤ best.2 then ⟨some e, best.2, "brand-fuzzy"⟩
                else ⟨none, best.2, "none"⟩
    | none => ⟨none, best.2, "none"⟩

/-! ### XMLTV timestamp parsing (`parseXmltvToISO` of
`mx-scrape-and-match.mjs`, lines 167–180) -/

/-- Days from the epoch 1970-01-01 to civil date `(y, m, d)` with
`m ∈ 1..12` (proleptic Gregorian; the calendar underlying `Date.UTC`). -/
def daysFromCivil (y m d : Int) : Int :=
  let y1 := if m ≤ 2 then y - 1 else y
  let era := y1.fdiv 400
  let yoe := y1 - era * 400
  let mp := if 2 < m then m - 3 else m + 9
  let doy := (153 * mp + 2) / 5 + d - 1
  let doe := yoe * 365 + yoe / 4 - yoe / 100 + doy
  era * 146097 + doe - 719468

/-- `Date.UTC(y, mo0, d, h, mi, s)` in milliseconds: the month `mo0` is
0-based and, like the hours/minutes/seconds, is normalized by plain
arithmetic; years `0..99` mean `1900..1999`. -/
def dateUtcMs (y mo0 d h mi s : Int) : Int :=
  let y := if 0 ≤ y && y ≤ 99 then y + 1900 else y
  let ym := y + mo0.fdiv 12
  let mn := mo0.emod 12
  (daysFromCivil ym (mn + 1) 1 + (d - 1)) * 86400000
    + h * 3600000 + mi * 60000 + s * 1000

/-- The capture groups of
`/^(\d{4})(\d{2})(\d{2})(\d{2})(\d{2})(\d{2})(?:\s*([+-]\d{4}))?$/`. -/
structure XmltvFields where
  year : Nat
  month : Nat
  day : Nat
  hour : Nat
  minute : Nat
  second : Nat
  offNeg : Bool
  offHH : Nat
  offMM : Nat
  hasOff : Bool
deriving DecidableEq, Repr

def natOfDigits (l : List Char) : Nat :=
  l.foldl (fun n c => n * 10 + (c.toNat - 48)) 0

/-- The regex match of `parseXmltvToISO`: 14 digits, then optionally
whitespace and a sign followed by exactly four digits, then end of
string. -/
def xmltvMatch (s : String) : Option XmltvFields :=
  let cs := s.data
  let head := cs.take 14
  let rest := cs.drop 14
  if head.length = 14 && head.all isAsciiDigitCh then
    let y := natOfDigits (head.take 4)
    let mo := natOfDigits ((head.drop 4).take 2)
    let d := natOfDigits ((head.drop 6).take 2)
    let h := natOfDigits ((head.drop 8).take 2)
    let mi := natOfDigits ((head.drop 10).take 2)
    let se := natOfDigits ((head.drop 12).take 2)
    match rest with
    | [] => some ⟨y, mo, d, h, mi, se, false, 0, 0, false⟩
    | _ =>
      match rest.dropWhile isWsCh with
      | sign :: d1 :: d2 :: d3 :: d4 :: [] =>
        if (sign == '+' || sign == '-') && [d1, d2, d3, d4].all isAsciiDigitCh then
          some ⟨y, mo, d, h, mi, se, sign == '-',
                natOfDigits [d1, d2], natOfDigits [d3, d4], true⟩
        else none
      | _ => none
  else none

/-- The naive wall-clock reading of the matched fields interpreted as UTC:
`Date.UTC(+Y, +Mo - 1, +D, +h, +mi, +se)`. -/
def naiveUtcMs (f : XmltvFields) : Int :=
  dateUtcMs (f.year : Int) ((f.month : Int) - 1) (f.day : Int)
    (f.hour : Int) (f.minute : Int) (f.second : Int)

/-- The signed offset in milliseconds:
`sign * (hh * 60 + mm) * 60 * 1000`, `0` when no offset group matched. -/
def offsetDeltaMs (f : XmltvFields) : Int :=
  if f.hasOff then
    (if f.offNeg then -1 else 1) * ((f.offHH : Int) * 60 + (f.offMM : Int)) * 60000
  else 0

/-- `parseXmltvToISO`, modelled as the instant (epoch milliseconds) denoted
by the ISO string it returns: `utcMs - delta`, or `null` when the regex
does not match. -/
def parseXmltvToMs (s : String) : Option Int :=
  match xmltvMatch s with
  | none => none
  | some f => some (naiveUtcMs f - offsetDeltaMs f)

/-! ### Programme retention decisions of the three EPG parsers -/

/-- The programme fields each retention decision inspects (instants in
epoch milliseconds; `none` models a `null` from timestamp parsing). -/
structure ProgRec where
  channel_id : String
  start_ts : Option Int
  stop_ts : Option Int
  title : String
deriving DecidableEq, Repr

/-- The window bound `now - EPG_PAST_HOURS*3600*1000` of `part_003`. -/
def windowMin (nowMs pastHours : Int) : Int := nowMs - pastHours * 3600000

/-- The window bound `now + EPG_WINDOW_HOURS*3600*1000` of `part_003`. -/
def windowMax (nowMs aheadHours : Int) : Int := nowMs + aheadHours * 3600000

/-- The `closetag('programme')` retention decision of
`parseEpgStreamAndIngest` (`part_003`, lines 202–243):
`hasChannel && hasTitle && withinWindow` with
`withinWindow = start_ts && start_ts >= minTs && start_ts <= maxTs`. -/
def keepProg003 (keptIds : List String) (p : ProgRec) (minTs maxTs : Int) : Bool :=
  keptIds.contains p.channel_id
    && jsTrim p.title != ""
    && (match p.start_ts with
        | none => false
        | some s => decide (minTs ≤ s) && decide (s ≤ maxTs))

/-- The `closetag('programme')` retention decision of `parseOneEpg`
(`part_004`, lines 267–273):
`keptIds.has(prog.channel_id) && prog.start_ts && prog.stop_ts` —
no time-window test at all. -/
def keepProg004 (keptIds : List String) (p : ProgRec) : Bool :=
  keptIds.contains p.channel_id && p.start_ts.isSome && p.stop_ts.isSome

/-- The `opentag('programme')` capture decision of `parseOneEpg`
(`mx-scrape-and-match.mjs`, lines 356–374), with `INGEST_PROGRAMS` on:
`cid && st && en && stDate && stDate <= keepWindowTo` — an upper window
bound only, and no Channel Index membership test. -/
def keepProgMx (cid : String) (st en : Option Int) (keepWindowTo : Int) : Bool :=
  cid != ""
    && (match st with
        | none => false
        | some s => en.isSome && decide (s ≤ keepWindowTo))

/-! ### Bounded `<display-name>` accumulation
(`part_005` lines 240–259; `mx-scrape-and-match.mjs` lines 384–404 is the
same logic with `MAX_NAME_CHARS = 1024`) -/

/-- The display-name accumulator state
(`dispChunks`, `dispLen`, `dispTruncated`). -/
structure DispAcc where
  chunks : List String
  len : Nat
  truncated : Bool
deriving DecidableEq, Repr

/-- The fresh accumulator installed on `opentag('display-name')`. -/
def dispInit : DispAcc := ⟨[], 0, false⟩

/-- `if (chunk) { dispChunks.push(chunk); dispLen += chunk.length; }` with
the truncated flag set as computed before the push. -/
def dispPush (st : DispAcc) (chunk : String) (trunc : Bool) : DispAcc :=
  if chunk.length = 0 then { st with truncated := trunc }
  else ⟨st.chunks ++ [chunk], st.len + chunk.length, trunc⟩

/-- One `text` event while inside `<display-name>` (the
`!inDisp || !cur` early-outs are the surrounding state machine and are
modelled by only feeding events that reach this code). -/
def dispText (cap : Nat) (st : DispAcc) (t : String) : DispAcc :=
  if t.length = 0 || st.truncated then st
  else
    let chunk := if cap < t.length then (⟨t.data.take cap⟩ : String) else t
    if cap ≤ st.len then { st with truncated := true }
    else if cap - st.len < chunk.length then
      dispPush st ⟨chunk.data.take (cap - st.len)⟩ true
    else
      dispPush st chunk st.truncated

/-- The string built on `closetag('display-name')`:
`(dispChunks.length ? dispChunks.join('') : '').trim()`. -/
def dispFinal (st : DispAcc) : String := jsTrim (strJoin st.chunks)

/-! ### Master-playlist variant selection (`bestFromMaster` of
`latam-iptvcat.mjs`, lines 239–264) -/

structure Variant where
  bw : Nat
  url : String
deriving DecidableEq, Repr

/-- Strip one leading and one trailing `'"'`
(JS `replace(/^"|"$/g, '')`). -/
def stripQuotes (s : String) : String :=
  let l := match s.data with
    | '"' :: rest => rest
    | l => l
  match l.reverse with
  | '"' :: rest => ⟨rest.reverse⟩
  | _ => ⟨l⟩

/-- The attribute pairs of a `#EXT-X-STREAM-INF` line's attribute part:
split on `','`, each piece split on `'='` into `[k, v]`, keys trimmed and
upper-cased, values trimmed and unquoted; falsy keys are skipped. -/
def attrPairs (s : String) : List (String × String) :=
  (splitChar ',' s).filterMap (fun p =>
    let parts := splitChar '=' p
    let k := jsTrim (parts.headD "")
    let v := jsTrim (parts.getD 1 "")
    if k = "" then none else some ((⟨k.data.map jsUpperCh⟩ : String), stripQuotes v))

/-- `Number(String(attrs.BANDWIDTH || '').replace(/[^0-9]/g, '')) || 0`:
the digits of the last `BANDWIDTH` binding, or `0`. -/
def bwOf (attrs : List (String × String)) : Nat :=
  match (attrs.filter (fun p => p.1 == "BANDWIDTH")).getLast? with
  | none => 0
  | some p => natOfDigits (p.2.data.filter isAsciiDigitCh)

/-- Modelled from WHATWG `new URL(rel, base)` resolution, restricted to
well-formed absolute http(s) base URLs (the only kind the script feeds
it); the `catch` branch of the source keeps `rel` as-is. -/
def resolveUrl (base rel : String) : String :=
  if strStarts "http://" rel || strStarts "https://" rel then rel
  else if strStarts "//" rel then
    ⟨base.data.takeWhile (fun c => c != ':')⟩ ++ ":" ++ rel
  else if strStarts "/" rel then
    let afterScheme :=
      if strStarts "https://" base then ("https://", base.data.drop 8)
      else if strStarts "http://" base then ("http://", base.data.drop 7)
      else ("", base.data)
    afterScheme.1 ++ (⟨afterScheme.2.takeWhile (fun c => c != '/')⟩ : String) ++ rel
  else
    let cut := (base.data.reverse.dropWhile (fun c => c != '/')).reverse
    (⟨cut⟩ : String) ++ rel

/-- The variant-collection loop of `bestFromMaster`: every trimmed
`#EXT-X-STREAM-INF` line whose next line is non-empty and not a comment
contributes `{bw, url}`. -/
def collectVariants (base : String) : List String → List Variant
  | [] => []
  | l :: rest =>
    let L := jsTrim l
    if strStarts "#EXT-X-STREAM-INF" L then
      let attrsStr := (splitChar ':' L).getD 1 ""
      let bw := bwOf (attrPairs attrsStr)
      let next := jsTrim (rest.headD "")
      (if next != "" && !strStarts "#" next then [⟨bw, resolveUrl base next⟩] else [])
        ++ collectVariants base rest
    else collectVariants base rest

/-- The descending-bandwidth order of `sort((a, b) => b.bw - a.bw)`. -/
def bwGe (a b : Variant) : Prop := b.bw ≤ a.bw

instance : DecidableRel bwGe := fun a b => Nat.decLe b.bw a.bw

instance : IsTotal Variant bwGe := ⟨fun a b => (Nat.le_total b.bw a.bw).imp id id⟩

instance : IsTrans Variant bwGe :=
  ⟨fun _ _ _ hab hbc => Nat.le_trans hbc hab⟩

/-- `bestFromMaster(baseUrl, text)`: stable sort by descending bandwidth
(`variants.sort((a, b) => b.bw - a.bw)`, modelled by the stable
`insertionSort` under `bwGe`, which yields the same array), then
`variants[0]?.url || null`. -/
def bestFromMaster (baseUrl text : String) : Option String :=
  let variants := collectVariants baseUrl (splitLinesJs text)
  ((variants.insertionSort bwGe).head?).map Variant.url

/-! ### Stream probes (`probeM3U8` of `part_005` lines 176–190 and
`mx-scrape-and-match.mjs` lines 311–325; `probePlaylist` of
`latam-iptvcat.mjs` lines 217–237) -/

/-- The outcome of the single `fetch` (plus body read) a probe performs.
`failure` covers a network error, an abort fired by the probe's own
timeout, and a body-read error — everything the `catch` receives.
`response` carries `r.ok`, `r.url` and the body text. -/
inductive FetchOutcome where
  | failure (err : String)
  | response (ok : Bool) (finalUrl : String) (body : String)
deriving DecidableEq, Repr

def hasExtM3U (body : String) : Bool := strHasSub "#EXTM3U" body

/-- `probeM3U8(url)` as a function of the fetch outcome:
`catch → false`; `!r.ok → false`; else `txt.includes('#EXTM3U')`. -/
def probeM3U8 : FetchOutcome → Bool
  | .failure _ => false
  | .response ok _ body => if ok then hasExtM3U body else false

/-- The record returned by `fetchText` (`latam-iptvcat.mjs`,
lines 606–621): `{ ok, status, ct, url, txt }` on a response and
`{ ok: false, error }` from its own `catch` (which also swallows the
abort fired by the probe's deadline, so `fetchText` never throws).  The
`status`/`error` fields never influence control flow and are dropped; in
the catch branch `ct`/`url`/`txt` are absent, and every use of them
(`String.prototype.test` on `undefined`, `r.url || best`) behaves exactly
as on the empty string, which is how that branch is modelled. -/
structure FetchTextResult where
  ok : Bool
  ct : String
  url : String
  txt : String
deriving DecidableEq, Repr

/-- The `fetchText` catch branch: `{ ok: false, error }`. -/
def fetchFailed : FetchTextResult := ⟨false, "", "", ""⟩

/-- `/mpegurl|application\/x-mpegURL/i.test(ct)` (line 635). -/
def ctHls (ct : String) : Bool :=
  strHasSub "mpegurl" (jsLowerStr ct)
    || strHasSub "application/x-mpegurl" (jsLowerStr ct)

/-- `/#EXT-X-STREAM-INF/i.test(txt)` (line 628). -/
def hasStreamInf (txt : String) : Bool :=
  strHasSub "#ext-x-stream-inf" (jsLowerStr txt)

/-- `probePlaylist`'s result record `{ ok, url, reason }`. -/
structure ProbeResult where
  ok : Bool
  url : String
  reason : String
deriving DecidableEq, Repr

/-- `probePlaylist(url)` of `latam-iptvcat.mjs` lines 622–640, as a
function of the outcomes of its at most two `fetchText` calls: `r` for
the candidate URL and `r2` for the best master variant (consulted only
when the first body is a master playlist; the URL that second call is
made against is `bestFromMaster(url, r.txt) || url`). -/
def probePlaylist (url : String) (r r2 : FetchTextResult) : ProbeResult :=
  if r.ok && hasExtM3U r.txt then
    if hasStreamInf r.txt then
      let best := (bestFromMaster url r.txt).getD url
      ⟨r2.ok && hasExtM3U r2.txt, if r2.url = "" then best else r2.url, "master-best"⟩
    else ⟨true, if r.url = "" then url else r.url, "media-extm3u"⟩
  else if r.ok && ctHls r.ct then
    ⟨true, if r.url = "" then url else r.url, "ct-hls"⟩
  else ⟨false, url, "no-extm3u"⟩

/-! ### Persistence: upsert with insert fallback
(`savePrograms` of `part_002` lines 199–221 and of
`mx-scrape-and-match.mjs` lines 543–561; `saveRows` of `part_005`
lines 383–408) -/

/-- `/no unique|no exclusion/i.test(msg)` (`part_002`). -/
def noUniqueErr002 (msg : String) : Bool :=
  strHasSub "no unique" (jsLowerStr msg) || strHasSub "no exclusion" (jsLowerStr msg)

/-- `/no unique|no exclusion constraint/i.test(msg)`
(`mx-scrape-and-match.mjs`). -/
def noUniqueErrMx (msg : String) : Bool :=
  strHasSub "no unique" (jsLowerStr msg)
    || strHasSub "no exclusion constraint" (jsLowerStr msg)

/-- One batch of `savePrograms` (`part_002`), as a function of the sink's
answers: the pair is (was the insert fallback attempted, the error left
after the fallback — `none` meaning the batch write succeeded).  The
caller warns and stops exactly when the second component is `some`. -/
def saveProgramsBatch002 (upsertErr insertErr : Option String) :
    Bool × Option String :=
  match upsertErr with
  | none => (false, none)
  | some m => if noUniqueErr002 m then (true, insertErr) else (false, some m)

/-- One batch of `savePrograms` (`mx-scrape-and-match.mjs`); same shape,
with its own error-class regex. -/
def saveProgramsBatchMx (upsertErr insertErr : Option String) :
    Bool × Option String :=
  match upsertErr with
  | none => (false, none)
  | some m => if noUniqueErrMx m then (true, insertErr) else (false, some m)

/-- The whole-row write of `saveRows` (`part_005`, lines 397–407): the
insert fallback runs on ANY upsert error, with no error-class test. -/
def saveRowsBatch005 (upsertErr insertErr : Option String) :
    Bool × Option String :=
  match upsertErr with
  | none => (false, none)
  | some _ => (true, insertErr)

/-! ### Helper lemmas -/

theorem length_dropWhile_le' (p : Char → Bool) (l : List Char) :
    (l.dropWhile p).length ≤ l.length :=
  (List.dropWhile_sublist p).length_le

theorem jsTrim_length_le (s : String) : (jsTrim s).length ≤ s.length := by
  unfold jsTrim
  simp only [String.length_mk, List.length_reverse]
  calc ((s.data.dropWhile isWsCh).reverse.dropWhile isWsCh).length
      ≤ (s.data.dropWhile isWsCh).reverse.length := length_dropWhile_le' _ _
    _ = (s.data.dropWhile isWsCh).length := List.length_reverse _
    _ ≤ s.data.length := length_dropWhile_le' _ _

theorem strJoin_length (l : List String) :
    (strJoin l).length = (l.map String.length).sum := by
  induction l with
  | nil => rfl
  | cons s ss ih => simp [strJoin, String.length_append, ih]

/-- The subset fold never forgets a `some` accumulator. -/
theorem subsetFold_some_ne_none (sTok : List String) :
    ∀ (l : List Entry) (x : Entry × Nat),
      l.foldl (subsetStep sTok) (some x) ≠ none := by
  intro l
  induction l with
  | nil => intro x h; exact Option.noConfusion h
  | cons e l ih =>
    intro x
    simp only [List.foldl_cons]
    unfold subsetStep
    split
    · exact ih _
    · exact ih _

/-- The subset fold starting from `none` returns `none` exactly when no
entry qualifies. -/
theorem subsetFold_none_iff (sTok : List String) :
    ∀ (l : List Entry),
      l.foldl (subsetStep sTok) none = none ↔ ∀ e ∈ l, entryAllIn sTok e = false := by
  intro l
  induction l with
  | nil => simp
  | cons e l ih =>
    simp only [List.foldl_cons, List.mem_cons]
    constructor
    · intro h
      have he : entryAllIn sTok e = false := by
        by_contra hne
        have he' : entryAllIn sTok e = true := by
          cases hb : entryAllIn sTok e
          · exact absurd hb hne
          · rfl
        rw [show subsetStep sTok none e = some (e, e.tokenSet.length) by
              unfold subsetStep; simp [he']] at h
        exact subsetFold_some_ne_none sTok l _ h
      refine fun e' he'' => he''.elim (fun hq => hq ▸ he) (fun hm => ?_)
      rw [show subsetStep sTok none e = none by unfold subsetStep; simp [he]] at h
      exact (ih.mp h) e' hm
    · intro h
      have he : entryAllIn sTok e = false := h e (Or.inl rfl)
      rw [show subsetStep sTok none e = none by unfold subsetStep; simp [he]]
      exact ih.mpr (fun e' hm => h e' (Or.inr hm))

/-- What a `some` result of the subset fold means: a qualifying entry,
drawn from the scanned list or the accumulator, whose token-set size is
minimal among all qualifying entries scanned and no larger than the
accumulator's. -/
theorem subsetFold_min (sTok : List String) :
    ∀ (l : List Entry) (acc : Option (Entry × Nat))
      (hacc : ∀ x, acc = some x → x.2 = x.1.tokenSet.length ∧ entryAllIn sTok x.1 = true)
      (x : Entry × Nat),
      l.foldl (subsetStep sTok) acc = some x →
        x.2 = x.1.tokenSet.length ∧ entryAllIn sTok x.1 = true ∧
        (x.1 ∈ l ∨ acc = some x) ∧
        (∀ e ∈ l, entryAllIn sTok e = true → x.2 ≤ e.tokenSet.length) ∧
        (∀ y, acc = some y → x.2 ≤ y.2) := by
  intro l
  induction l with
  | nil =>
    intro acc hacc x hx
    simp only [List.foldl_nil] at hx
    obtain ⟨h1, h2⟩ := hacc x hx
    exact ⟨h1, h2, Or.inr hx, by simp, fun y hy => by rw [hx] at hy; cases hy; exact le_refl _⟩
  | cons e l ih =>
    intro acc hacc x hx
    simp only [List.foldl_cons] at hx
    cases hall : entryAllIn sTok e with
    | false =>
      have hstep : subsetStep sTok acc e = acc := by
        unfold subsetStep; simp [hall]
      rw [hstep] at hx
      obtain ⟨h1, h2, h3, h4, h5⟩ := ih _ hacc x hx
      refine ⟨h1, h2, ?_, ?_, h5⟩
      · exact h3.elim (fun hm => Or.inl (List.mem_cons_of_mem _ hm)) Or.inr
      · intro e' he' hall'
        cases List.mem_cons.mp he' with
        | inl heq => subst heq; rw [hall] at hall'; exact absurd hall' (by simp)
        | inr hm => exact h4 e' hm hall'
    | true =>
      have hrepl : ∀ hx' : l.foldl (subsetStep sTok) (some (e, e.tokenSet.length)) = some x,
          x.2 = x.1.tokenSet.length ∧ entryAllIn sTok x.1 = true ∧
          (x.1 ∈ e :: l) ∧
          (∀ e' ∈ e :: l, entryAllIn sTok e' = true → x.2 ≤ e'.tokenSet.length) := by
        intro hx'
        have hacc' : ∀ y, (some (e, e.tokenSet.length) : Option (Entry × Nat)) = some y →
            y.2 = y.1.tokenSet.length ∧ entryAllIn sTok y.1 = true := by
          intro y hy; cases hy; exact ⟨rfl, hall⟩
        obtain ⟨h1, h2, h3, h4, h5⟩ := ih _ hacc' x hx'
        refine ⟨h1, h2, ?_, ?_⟩
        · cases h3 with
          | inl hm => exact List.mem_cons_of_mem _ hm
          | inr heq => cases heq; exact List.mem_cons_self _ _
        · intro e' he' hall'
          cases List.mem_cons.mp he' with
          | inl heq => subst heq; exact h5 (e', e'.tokenSet.length) rfl
          | inr hm => exact h4 e' hm hall'
      cases acc with
      | none =>
        have hstep : subsetStep sTok none e = some (e, e.tokenSet.length) := by
          unfold subsetStep; simp [hall]
        rw [hstep] at hx
        obtain ⟨h1, h2, h3, h4⟩ := hrepl hx
        exact ⟨h1, h2, Or.inl h3, h4, fun y hy => Option.noConfusion hy⟩
      | some z =>
        by_cases hlt : e.tokenSet.length < z.2
        · have hstep : subsetStep sTok (some z) e = some (e, e.tokenSet.length) := by
            unfold subsetStep; simp [hall, hlt]
          rw [hstep] at hx
          obtain ⟨h1, h2, h3, h4⟩ := hrepl hx
          refine ⟨h1, h2, Or.inl h3, h4, ?_⟩
          intro y hy
          cases hy
          exact le_trans (h4 e (List.mem_cons_self _ _) hall) (le_of_lt hlt)
        · have hstep : subsetStep sTok (some z) e = some z := by
            unfold subsetStep; simp [hall, hlt]
          rw [hstep] at hx
          obtain ⟨h1, h2, h3, h4, h5⟩ := ih _ hacc x hx
          refine ⟨h1, h2, ?_, ?_, h5⟩
          · exact h3.elim (fun hm => Or.inl (List.mem_cons_of_mem _ hm)) Or.inr
          · intro e' he' hall'
            cases List.mem_cons.mp he' with
            | inl heq =>
              subst heq
              have hz := h5 z rfl
              omega
            | inr hm => exact h4 e' hm hall'

/-- The best-score fold never lowers the running best score. -/
theorem bestFold_mono :
    ∀ (l : List (Entry × ℚ)) (acc : Option Entry × ℚ),
      acc.2 ≤ (l.foldl bestStep acc).2 := by
  intro l
  induction l with
  | nil => intro acc; exact le_refl _
  | cons p l ih =>
    intro acc
    simp only [List.foldl_cons]
    refine le_trans ?_ (ih (bestStep acc p))
    unfold bestStep
    split
    · next hlt => exact le_of_lt hlt
    · exact le_refl _

/-- Every scanned score is at most the final best score. -/
theorem bestFold_ge :
    ∀ (l : List (Entry × ℚ)) (acc : Option Entry × ℚ),
      ∀ p ∈ l, p.2 ≤ (l.foldl bestStep acc).2 := by
  intro l
  induction l with
  | nil => intro acc p hp; exact absurd hp (List.not_mem_nil p)
  | cons q l ih =>
    intro acc p hp
    simp only [List.foldl_cons]
    cases List.mem_cons.mp hp with
    | inl heq =>
      subst heq
      refine le_trans ?_ (bestFold_mono l (bestStep acc p))
      unfold bestStep
      split
      · exact le_refl _
      · next hnlt => exact le_of_not_lt hnlt
    | inr hm => exact ih (bestStep acc q) p hm

/-- The fold result is either the untouched accumulator or the pair of
some scanned element. -/
theorem bestFold_attained :
    ∀ (l : List (Entry × ℚ)) (acc : Option Entry × ℚ),
      l.foldl bestStep acc = acc ∨
        ∃ p ∈ l, l.foldl bestStep acc = (some p.1, p.2) := by
  intro l
  induction l with
  | nil => intro acc; exact Or.inl rfl
  | cons q l ih =>
    intro acc
    simp only [List.foldl_cons]
    cases ih (bestStep acc q) with
    | inl heq =>
      rw [heq]
      unfold bestStep
      split
      · exact Or.inr ⟨q, List.mem_cons_self _ _, rfl⟩
      · exact Or.inl rfl
    | inr hex =>
      obtain ⟨p, hp, heq⟩ := hex
      exact Or.inr ⟨p, List.mem_cons_of_mem _ hp, heq⟩

/-- The display-name accumulator invariant: the recorded length never
exceeds the cap and always equals the total length of the buffered
chunks.  One text event preserves it. -/
theorem dispPush_inv (st : DispAcc) (chunk : String) (trunc : Bool) (cap : Nat)
    (h1 : st.len ≤ cap) (h2 : (st.chunks.map String.length).sum = st.len)
    (hc : st.len + chunk.length ≤ cap) :
    (dispPush st chunk trunc).len ≤ cap ∧
      ((dispPush st chunk trunc).chunks.map String.length).sum
        = (dispPush st chunk trunc).len := by
  unfold dispPush
  split
  · exact ⟨h1, h2⟩
  · refine ⟨hc, ?_⟩
    simp [h2]

theorem dispText_inv (cap : Nat) (st : DispAcc) (t : String)
    (h1 : st.len ≤ cap) (h2 : (st.chunks.map String.length).sum = st.len) :
    (dispText cap st t).len ≤ cap ∧
      ((dispText cap st t).chunks.map String.length).sum = (dispText cap st t).len := by
  unfold dispText
  split
  · exact ⟨h1, h2⟩
  · by_cases hcap : cap ≤ st.len
    · rw [if_pos hcap]
      exact ⟨h1, h2⟩
    · rw [if_neg hcap]
      have hlen : st.len < cap := Nat.lt_of_not_le hcap
      by_cases hover : cap - st.len
          < (if cap < t.length then (⟨t.data.take cap⟩ : String) else t).length
      · rw [if_pos hover]
        apply dispPush_inv _ _ _ _ h1 h2
        simp only [String.length_mk, List.length_take]
        have hdl : (if cap < t.length then (⟨t.data.take cap⟩ : String) else t).length
            ≤ (if cap < t.length then (⟨t.data.take cap⟩ : String) else t).data.length := by
          split
          · simp
          · exact le_refl _
        omega
      · rw [if_neg hover]
        apply dispPush_inv _ _ _ _ h1 h2
        omega

/-- The invariant holds after any sequence of text events starting from
the fresh accumulator. -/
theorem dispFold_inv (cap : Nat) :
    ∀ (events : List String) (st : DispAcc),
      st.len ≤ cap → (st.chunks.map String.length).sum = st.len →
      (events.foldl (dispText cap) st).len ≤ cap ∧
        ((events.foldl (dispText cap) st).chunks.map String.length).sum
          = (events.foldl (dispText cap) st).len := by
  intro events
  induction events with
  | nil => intro st h1 h2; exact ⟨h1, h2⟩
  | cons t ts ih =>
    intro st h1 h2
    simp only [List.foldl_cons]
    obtain ⟨h1', h2'⟩ := dispText_inv cap st t h1 h2
    exact ih _ h1' h2'

/-- Evaluate `jaccard` from the three integer components (which are
computed by the kernel via `rfl`). -/
theorem jaccard_eval (aTokens bTokens : List String) (i la lb : Nat)
    (hi : ((aTokens.eraseDups).filter
      (fun t => (bTokens.eraseDups).contains t)).length = i)
    (hla : (aTokens.eraseDups).length = la)
    (hlb : (bTokens.eraseDups).length = lb) :
    jaccard aTokens bTokens
      = if la + lb - i = 0 then 0 else (i : ℚ) / ((la + lb - i : Nat) : ℚ) := by
  unfold jaccard
  simp only [hi, hla, hlb]

theorem bestOver_attained (pairs : List (Entry × ℚ)) :
    bestOver pairs = (none, 0) ∨ ∃ p ∈ pairs, bestOver pairs = (some p.1, p.2) :=
  bestFold_attained pairs (none, 0)

theorem bestOver_ge (pairs : List (Entry × ℚ)) :
    ∀ p ∈ pairs, p.2 ≤ (bestOver pairs).2 :=
  bestFold_ge pairs (none, 0)

theorem subsetPick_none_iff (sTok : List String) (entries : List Entry) :
    subsetPick sTok entries = none ↔ ∀ e ∈ entries, entryAllIn sTok e = false := by
  unfold subsetPick
  rw [Option.map_eq_none']
  exact subsetFold_none_iff sTok entries

theorem subsetPick_some (sTok : List String) (entries : List Entry) (e : Entry)
    (h : subsetPick sTok entries = some e) :
    e ∈ entries ∧ entryAllIn sTok e = true ∧
      ∀ e' ∈ entries, entryAllIn sTok e' = true →
        e.tokenSet.length ≤ e'.tokenSet.length := by
  unfold subsetPick at h
  rw [Option.map_eq_some'] at h
  obtain ⟨x, hx, hxe⟩ := h
  obtain ⟨h1, h2, h3, h4, _⟩ := subsetFold_min sTok entries none
    (fun x hx => Option.noConfusion hx) x hx
  subst hxe
  refine ⟨?_, h2, ?_⟩
  · exact h3.elim id (fun habs => Option.noConfusion habs)
  · intro e' he' hall'
    have := h4 e' he' hall'
    omega

/-- Head of the descending-bandwidth stable sort: a member of maximal
bandwidth. -/
theorem sortDesc_head_max (l : List Variant) (v : Variant)
    (h : (l.insertionSort bwGe).head? = some v) :
    v ∈ l ∧ ∀ w ∈ l, w.bw ≤ v.bw := by
  have hsorted : List.Sorted bwGe (l.insertionSort bwGe) := List.sorted_insertionSort bwGe l
  have hperm : List.Perm (l.insertionSort bwGe) l := List.perm_insertionSort bwGe l
  cases hms : (l.insertionSort bwGe) with
  | nil => rw [hms] at h; exact Option.noConfusion h
  | cons x tail =>
    rw [hms] at h
    have hv : x = v := by simpa using h
    subst hv
    rw [hms] at hsorted hperm
    refine ⟨hperm.mem_iff.mp (List.mem_cons_self _ _), ?_⟩
    intro w hw
    have hw' : w ∈ x :: tail := hperm.mem_iff.mpr hw
    cases List.mem_cons.mp hw' with
    | inl heq => subst heq; exact le_refl _
    | inr htail => exact (List.pairwise_cons.mp hsorted).1 w htail

/-! ### Claim theorems -/

/-- C1: `findMatch` applies its tiers in the fixed order exact, anchor,
subset, fuzzy, none, and the first tier that produces a result wins: a
candidate whose normalized key is in the name-key map yields that entry
with score 1.0 and method `exact`; otherwise a candidate normalizing to
exactly one token held by some entry's token set yields that entry with
score 0.99 and method `anchor`; otherwise a candidate whose token set is
a subset of some entry's yields a qualifying entry of smallest token set
with score 0.9 and method `subset`; otherwise it falls to the fuzzy tier,
and when that too produces nothing it returns no entry, method `none`,
score 0. -/
theorem claim1_findMatch_tier_order (name key : String)
    (nameMap : List (String × Entry)) (entries : List Entry) :
    (∀ e, lookupName nameMap key = some e →
        findMatch name key nameMap entries = ⟨some e, 1, "exact"⟩)
    ∧ (∀ t e, lookupName nameMap key = none →
        (tokensOf name).eraseDups = [t] →
        entries.find? (fun e' => e'.tokenSet.contains t) = some e →
        findMatch name key nameMap entries = ⟨some e, 99 / 100, "anchor"⟩)
    ∧ (∀ e, lookupName nameMap key = none →
        anchorPick ((tokensOf name).eraseDups) entries = none →
        subsetPick ((tokensOf name).eraseDups) entries = some e →
        findMatch name key nameMap entries = ⟨some e, 9 / 10, "subset"⟩
          ∧ e ∈ entries ∧ entryAllIn ((tokensOf name).eraseDups) e = true
          ∧ ∀ e' ∈ entries, entryAllIn ((tokensOf name).eraseDups) e' = true →
              e.tokenSet.length ≤ e'.tokenSet.length)
    ∧ (lookupName nameMap key = none →
        anchorPick ((tokensOf name).eraseDups) entries = none →
        subsetPick ((tokensOf name).eraseDups) entries = none →
        (∀ e ∈ entries, ∀ nm ∈ e.names,
            jaccard (tokensOf name) (tokensOf nm) < FUZZY_MIN) →
        findMatch name key nameMap entries = ⟨none, 0, "none"⟩) := by
  refine ⟨?_, ?_, ?_, ?_⟩
  · intro e he
    unfold findMatch
    rw [he]
  · intro t e hnone ht hfind
    unfold findMatch
    rw [hnone]
    have hanch : anchorPick ((tokensOf name).eraseDups) entries = some e := by
      unfold anchorPick
      rw [ht]
      simpa using hfind
    simp only [hanch]
  · intro e hnone hanch hsub
    constructor
    · unfold findMatch
      rw [hnone]
      simp only [hanch, hsub]
    · obtain ⟨hm, hall, hmin⟩ := subsetPick_some _ _ _ hsub
      exact ⟨hm, hall, hmin⟩
  · intro hnone hanch hsub hfuzzy
    unfold findMatch
    rw [hnone]
    simp only [hanch, hsub]
    have hlt : ∀ p ∈ fuzzyPairs (tokensOf name) entries, p.2 < FUZZY_MIN := by
      intro p hp
      unfold fuzzyPairs at hp
      rw [List.mem_flatMap] at hp
      obtain ⟨e, he, hp2⟩ := hp
      rw [List.mem_map] at hp2
      obtain ⟨nm, hnm, hpe⟩ := hp2
      rw [← hpe]
      exact hfuzzy e he nm hnm
    rcases bestOver_attained (fuzzyPairs (tokensOf name) entries) with hz | ⟨p, hp, heq⟩
    · rw [hz]
    · rw [heq]
      have : ¬ FUZZY_MIN ≤ p.2 := not_le_of_lt (hlt p hp)
      simp only [this, if_false]

/-- Witness for C1 at concrete inputs: an exact hit returns that entry
with score 1 and method `exact`, and an index where every fuzzy score
stays below the threshold returns no entry, method `none`, score 0. -/
theorem claim1_findMatch_tier_order_witness :
    findMatch "Las Estrellas" (keyOf "Las Estrellas")
        [(keyOf "Las Estrellas", ⟨"estrellas.mx", ["Las Estrellas"], ["las", "estrellas"]⟩)]
        [⟨"estrellas.mx", ["Las Estrellas"], ["las", "estrellas"]⟩]
      = ⟨some ⟨"estrellas.mx", ["Las Estrellas"], ["las", "estrellas"]⟩, 1, "exact"⟩
    ∧ findMatch "alfa beta gama" (keyOf "alfa beta gama") []
        [⟨"othr.mx", [], ["1", "2"]⟩]
      = ⟨none, 0, "none"⟩ := by
  constructor
  · exact (claim1_findMatch_tier_order "Las Estrellas" (keyOf "Las Estrellas")
      [(keyOf "Las Estrellas", ⟨"estrellas.mx", ["Las Estrellas"], ["las", "estrellas"]⟩)]
      [⟨"estrellas.mx", ["Las Estrellas"], ["las", "estrellas"]⟩]).1
      ⟨"estrellas.mx", ["Las Estrellas"], ["las", "estrellas"]⟩ (by decide)
  · exact (claim1_findMatch_tier_order "alfa beta gama" (keyOf "alfa beta gama") []
      [⟨"othr.mx", [], ["1", "2"]⟩]).2.2.2
      (by decide) (by decide) (by decide) (by decide)

/-- C10: a candidate whose token set is empty after normalization (and
whose key misses the name-key map) is never answered with method `none`
over a non-empty entry list: the empty set is vacuously a subset of every
entry's token set, so `findMatch` returns method `subset`, score 0.9, and
an entry whose token set is smallest in the index. -/
theorem claim10_empty_candidate_matches_subset (name key : String)
    (nameMap : List (String × Entry)) (entries : List Entry)
    (htok : tokensOf name = [])
    (hkey : lookupName nameMap key = none)
    (hne : entries ≠ []) :
    ∃ e, findMatch name key nameMap entries = ⟨some e, 9 / 10, "subset"⟩
      ∧ e ∈ entries
      ∧ (∀ e' ∈ entries, e.tokenSet.length ≤ e'.tokenSet.length) := by
  have hTok : (tokensOf name).eraseDups = [] := by rw [htok]; rfl
  have hall : ∀ e ∈ entries, entryAllIn ((tokensOf name).eraseDups) e = true := by
    intro e _
    rw [hTok]
    rfl
  have hanch : anchorPick ((tokensOf name).eraseDups) entries = none := by
    unfold anchorPick
    rw [hTok]
    simp
  have hsub : subsetPick ((tokensOf name).eraseDups) entries ≠ none := by
    intro hcontra
    rw [subsetPick_none_iff] at hcontra
    obtain ⟨e0, hmem⟩ := List.exists_mem_of_ne_nil entries hne
    have := hcontra e0 hmem
    rw [hall e0 hmem] at this
    exact Bool.noConfusion this
  obtain ⟨e, he⟩ := Option.ne_none_iff_exists'.mp hsub
  obtain ⟨hmem, _, hmin⟩ := subsetPick_some _ _ _ he
  refine ⟨e, ?_, hmem, fun e' he' => hmin e' he' (hall e' he')⟩
  unfold findMatch
  rw [hkey]
  simp only [hanch, he]

/-- Witness for C10: the all-stop-word candidate `"Canal TV HD"`
(empty token set) is matched with method `subset` and score 0.9 against
any two-entry index. -/
theorem claim10_empty_candidate_matches_subset_witness :
    ∃ e, findMatch "Canal TV HD" (keyOf "Canal TV HD") []
        [⟨"b2", ["alfa beta gama delta"], ["alfa", "beta", "gama", "delta"]⟩,
         ⟨"b1", ["alfa beta gama"], ["alfa", "beta", "gama"]⟩]
      = ⟨some e, 9 / 10, "subset"⟩
      ∧ e ∈ [⟨"b2", ["alfa beta gama delta"], ["alfa", "beta", "gama", "delta"]⟩,
             (⟨"b1", ["alfa beta gama"], ["alfa", "beta", "gama"]⟩ : Entry)]
      ∧ (∀ e' ∈ [⟨"b2", ["alfa beta gama delta"], ["alfa", "beta", "gama", "delta"]⟩,
                 (⟨"b1", ["alfa beta gama"], ["alfa", "beta", "gama"]⟩ : Entry)],
          e.tokenSet.length ≤ e'.tokenSet.length) :=
  claim10_empty_candidate_matches_subset "Canal TV HD" (keyOf "Canal TV HD") []
    _ (by decide) (by decide) (by decide)

/-- C9 counterexample: with candidate `"alfa beta gama"` and two entries
whose token sets `{alfa}` and `{alfa, beta}` are each strictly smaller
than and fully contained in the candidate's token set, the matcher does
not return the smaller entry by subset-tier selection — the subset tier
(which tests the reverse inclusion) produces nothing, and the fuzzy tier
returns the LARGER entry with method `fuzzy`. -/
theorem claim9_counterexample :
    ((⟨"e1", ["alfa"], ["alfa"]⟩ : Entry).tokenSet.all
        (fun t => (tokensOf "alfa beta gama").contains t) = true)
    ∧ ((⟨"e2", ["alfa beta"], ["alfa", "beta"]⟩ : Entry).tokenSet.all
        (fun t => (tokensOf "alfa beta gama").contains t) = true)
    ∧ (⟨"e1", ["alfa"], ["alfa"]⟩ : Entry).tokenSet.length
        < (⟨"e2", ["alfa beta"], ["alfa", "beta"]⟩ : Entry).tokenSet.length
    ∧ (⟨"e2", ["alfa beta"], ["alfa", "beta"]⟩ : Entry).tokenSet.length
        < (tokensOf "alfa beta gama").length
    ∧ findMatch "alfa beta gama" (keyOf "alfa beta gama") []
        [⟨"e1", ["alfa"], ["alfa"]⟩, ⟨"e2", ["alfa beta"], ["alfa", "beta"]⟩]
          = ⟨some ⟨"e2", ["alfa beta"], ["alfa", "beta"]⟩, 2 / 3, "fuzzy"⟩ := by
  refine ⟨by decide, by decide, by decide, by decide, ?_⟩
  unfold findMatch
  rw [show lookupName [] (keyOf "alfa beta gama") = none from rfl]
  simp only
  rw [show anchorPick ((tokensOf "alfa beta gama").eraseDups)
        [⟨"e1", ["alfa"], ["alfa"]⟩, ⟨"e2", ["alfa beta"], ["alfa", "beta"]⟩] = none
      from by decide]
  rw [show subsetPick ((tokensOf "alfa beta gama").eraseDups)
        [⟨"e1", ["alfa"], ["alfa"]⟩, ⟨"e2", ["alfa beta"], ["alfa", "beta"]⟩] = none
      from by decide]
  have hj1 : jaccard (tokensOf "alfa beta gama") (tokensOf "alfa") = 1 / 3 := by
    rw [jaccard_eval (tokensOf "alfa beta gama") (tokensOf "alfa") 1 3 1 rfl rfl rfl]
    norm_num
  have hj2 : jaccard (tokensOf "alfa beta gama") (tokensOf "alfa beta") = 2 / 3 := by
    rw [jaccard_eval (tokensOf "alfa beta gama") (tokensOf "alfa beta") 2 3 2 rfl rfl rfl]
    norm_num
  rw [show fuzzyPairs (tokensOf "alfa beta gama")
        [⟨"e1", ["alfa"], ["alfa"]⟩, ⟨"e2", ["alfa beta"], ["alfa", "beta"]⟩]
      = [(⟨"e1", ["alfa"], ["alfa"]⟩, jaccard (tokensOf "alfa beta gama") (tokensOf "alfa")),
         (⟨"e2", ["alfa beta"], ["alfa", "beta"]⟩,
           jaccard (tokensOf "alfa beta gama") (tokensOf "alfa beta"))] from rfl]
  rw [hj1, hj2]
  unfold bestOver bestStep
  norm_num [FUZZY_MIN]

/-- C9 as amended: the containment direction is the reverse of the
claim's — when the CANDIDATE's token set is contained in the token sets
of both entries and one entry's token set is strictly smaller than the
other's, the subset tier fires and returns the entry with the smaller
token set (in either scan order), score 0.9, method `subset`. -/
theorem claim9_amended_subset_prefers_smaller (name key : String)
    (nameMap : List (String × Entry)) (e1 e2 : Entry)
    (hkey : lookupName nameMap key = none)
    (hlen : ((tokensOf name).eraseDups).length ≠ 1)
    (h1 : entryAllIn ((tokensOf name).eraseDups) e1 = true)
    (h2 : entryAllIn ((tokensOf name).eraseDups) e2 = true)
    (hsz : e1.tokenSet.length < e2.tokenSet.length) :
    findMatch name key nameMap [e1, e2] = ⟨some e1, 9 / 10, "subset"⟩
    ∧ findMatch name key nameMap [e2, e1] = ⟨some e1, 9 / 10, "subset"⟩ := by
  have hanch : ∀ es : List Entry, anchorPick ((tokensOf name).eraseDups) es = none := by
    intro es
    unfold anchorPick
    rw [if_neg hlen]
  have hnlt : ¬ (e2.tokenSet.length < e1.tokenSet.length) := by omega
  have hsub1 : subsetPick ((tokensOf name).eraseDups) [e1, e2] = some e1 := by
    unfold subsetPick
    simp [subsetStep, h1, h2, hnlt]
  have hsub2 : subsetPick ((tokensOf name).eraseDups) [e2, e1] = some e1 := by
    unfold subsetPick
    simp [subsetStep, h1, h2, hsz]
  constructor
  · unfold findMatch
    rw [hkey]
    simp only [hanch, hsub1]
  · unfold findMatch
    rw [hkey]
    simp only [hanch, hsub2]

/-- Witness for the amended C9: candidate `"alfa beta"` against entries
with token sets of sizes 3 and 4, both containing the candidate's tokens:
the smaller entry wins in both orders. -/
theorem claim9_amended_subset_prefers_smaller_witness :
    findMatch "alfa beta" (keyOf "alfa beta") []
        [⟨"b1", ["alfa beta gama"], ["alfa", "beta", "gama"]⟩,
         ⟨"b2", ["alfa beta gama delta"], ["alfa", "beta", "gama", "delta"]⟩]
      = ⟨some ⟨"b1", ["alfa beta gama"], ["alfa", "beta", "gama"]⟩, 9 / 10, "subset"⟩
    ∧ findMatch "alfa beta" (keyOf "alfa beta") []
        [⟨"b2", ["alfa beta gama delta"], ["alfa", "beta", "gama", "delta"]⟩,
         ⟨"b1", ["alfa beta gama"], ["alfa", "beta", "gama"]⟩]
      = ⟨some ⟨"b1", ["alfa beta gama"], ["alfa", "beta", "gama"]⟩, 9 / 10, "subset"⟩ :=
  claim9_amended_subset_prefers_smaller "alfa beta" (keyOf "alfa beta") []
    ⟨"b1", ["alfa beta gama"], ["alfa", "beta", "gama"]⟩
    ⟨"b2", ["alfa beta gama delta"], ["alfa", "beta", "gama", "delta"]⟩
    (by decide) (by decide) (by decide) (by decide) (by decide)

/-- C2 counterexample: in the brand-weighted matcher the acceptance
threshold is `FUZZY_MIN - 0.05`, not `FUZZY_MIN`: a candidate whose best
(brand-free) score is 3/7 ≈ 0.43 — strictly below the configured minimum
0.45 — is still accepted with an entry and method `brand-fuzzy`, where
the claim demands no entry and method `none`. -/
theorem claim2_counterexample :
    findMatchByName "alfa beta gama delta" (keyOfMx "alfa beta gama delta") []
        [⟨"em", ["alfa beta gama epsilon zeta eta"], []⟩]
      = ⟨some ⟨"em", ["alfa beta gama epsilon zeta eta"], []⟩, 3 / 7, "brand-fuzzy"⟩
    ∧ (3 / 7 : ℚ) < 45 / 100 := by
  constructor
  · unfold findMatchByName
    rw [show lookupName [] (keyOfMx "alfa beta gama delta") = none from rfl]
    simp only
    have hsc : scorePair (tokensOfMx "alfa beta gama delta")
        (tokensOfMx "alfa beta gama epsilon zeta eta") = 3 / 7 := by
      unfold scorePair
      rw [jaccard_eval (tokensOfMx "alfa beta gama delta")
        (tokensOfMx "alfa beta gama epsilon zeta eta") 3 4 6 rfl rfl rfl]
      rw [show brandHits (tokensOfMx "alfa beta gama delta")
        (tokensOfMx "alfa beta gama epsilon zeta eta") = 0 from rfl]
      norm_num
    rw [show brandPairs (tokensOfMx "alfa beta gama delta")
          [⟨"em", ["alfa beta gama epsilon zeta eta"], []⟩]
        = [(⟨"em", ["alfa beta gama epsilon zeta eta"], []⟩,
            scorePair (tokensOfMx "alfa beta gama delta")
              (tokensOfMx "alfa beta gama epsilon zeta eta"))] from rfl]
    rw [hsc]
    unfold bestOver bestStep
    norm_num [FUZZY_MIN]
  · norm_num

/-- C2 as amended: the fuzzy tier of `findMatchByName` scores every name
of every entry by Jaccard plus a brand bonus of `min(hits, 3) * 0.05`
(never exceeding +0.15), keeps the maximum-scoring entry, and accepts it
if and only if the best score is at least `FUZZY_MIN - 0.05` (0.40 at
the default configuration), with method `brand-fuzzy`; a best score
strictly below that reduced threshold yields no entry and method `none`
(carrying the best score, not 0). -/
theorem claim2_amended_brand_fuzzy (name key : String)
    (nameMap : List (String × Entry)) (entries : List Entry) :
    (∀ aT bT : List String,
        jaccard aT bT ≤ scorePair aT bT
          ∧ scorePair aT bT ≤ jaccard aT bT + 15 / 100)
    ∧ (lookupName nameMap key = none →
        ∀ e ∈ entries, ∀ nm ∈ e.names,
          scorePair (tokensOfMx name) (tokensOfMx nm)
            ≤ (bestOver (brandPairs (tokensOfMx name) entries)).2)
    ∧ (lookupName nameMap key = none →
        (bestOver (brandPairs (tokensOfMx name) entries)).2 < FUZZY_MIN - 5 / 100 →
        findMatchByName name key nameMap entries
          = ⟨none, (bestOver (brandPairs (tokensOfMx name) entries)).2, "none"⟩)
    ∧ (∀ e, lookupName nameMap key = none →
        (bestOver (brandPairs (tokensOfMx name) entries)).1 = some e →
        FUZZY_MIN - 5 / 100 ≤ (bestOver (brandPairs (tokensOfMx name) entries)).2 →
        findMatchByName name key nameMap entries
          = ⟨some e, (bestOver (brandPairs (tokensOfMx name) entries)).2,
              "brand-fuzzy"⟩) := by
  refine ⟨?_, ?_, ?_, ?_⟩
  · intro aT bT
    unfold scorePair
    have hnn : (0 : ℚ) ≤ min ((brandHits aT bT : ℚ)) 3 :=
      le_min (by positivity) (by norm_num)
    have hle : min ((brandHits aT bT : ℚ)) 3 ≤ 3 := min_le_right _ _
    constructor
    · nlinarith
    · nlinarith
  · intro _ e he nm hnm
    refine bestOver_ge _ (e, scorePair (tokensOfMx name) (tokensOfMx nm)) ?_
    unfold brandPairs
    rw [List.mem_flatMap]
    exact ⟨e, he, List.mem_map.mpr ⟨nm, hnm, rfl⟩⟩
  · intro hkey hlt
    unfold findMatchByName
    rw [hkey]
    simp only
    cases hb : (bestOver (brandPairs (tokensOfMx name) entries)).1 with
    | none => rfl
    | some e =>
      have hn : ¬ (FUZZY_MIN - 5 / 100
          ≤ (bestOver (brandPairs (tokensOfMx name) entries)).2) := not_le_of_lt hlt
      simp only [hn, if_false]
  · intro e hkey hsome hge
    unfold findMatchByName
    rw [hkey]
    simp only
    rw [hsome]
    simp only [hge, if_true]

/-- Witness for the amended C2: with an empty index the best score is 0,
strictly below the reduced threshold, so the concrete result is no entry
and method `none`; and the brand bonus of a concrete scored pair stays
within [its Jaccard score, +0.15 above it]. -/
theorem claim2_amended_brand_fuzzy_witness :
    findMatchByName "alfa beta gama delta" (keyOfMx "alfa beta gama delta") [] []
      = ⟨none, 0, "none"⟩
    ∧ (jaccard ["azteca", "7"] ["azteca", "deportes"]
        ≤ scorePair ["azteca", "7"] ["azteca", "deportes"]
      ∧ scorePair ["azteca", "7"] ["azteca", "deportes"]
          ≤ jaccard ["azteca", "7"] ["azteca", "deportes"] + 15 / 100) := by
  constructor
  · have h := (claim2_amended_brand_fuzzy "alfa beta gama delta"
      (keyOfMx "alfa beta gama delta") [] []).2.2.1 rfl
      (by rw [show (bestOver (brandPairs (tokensOfMx "alfa beta gama delta") [])).2 = 0
            from rfl]
          norm_num [FUZZY_MIN])
    exact h.trans (by rfl)
  · exact (claim2_amended_brand_fuzzy "alfa beta gama delta"
      (keyOfMx "alfa beta gama delta") [] []).1 ["azteca", "7"] ["azteca", "deportes"]

/-- C3 counterexample: `parseOneEpg` of `part_004` batches a programme of
a kept channel whose start is 10 days past any reasonable lookahead — its
retention test checks only channel membership and that both timestamps
parsed, with no time-window condition (and the `mx-scrape` variant checks
no channel membership and only an upper bound), so "retained only if the
start instant falls within the window" fails on that parser. -/
theorem claim3_counterexample :
    keepProg004 ["c1"] ⟨"c1", some 864000000, some 867600000, "Show"⟩ = true
    ∧ windowMax 0 48 < (864000000 : Int)
    ∧ keepProg003 ["c1"] ⟨"c1", some 864000000, some 867600000, "Show"⟩
        (windowMin 0 0) (windowMax 0 48) = false := by
  refine ⟨by decide, by decide, by decide⟩

/-- C3 as amended: in `parseEpgStreamAndIngest` (`part_003`) a programme
is retained iff its channel id was kept in the Channel Index, its trimmed
title is non-empty, and its start instant lies within
`[now - lookback, now + lookahead]`; `parseOneEpg` of `part_004` retains
any programme of a kept channel whose start and stop both parsed,
regardless of the window; and the `mx-scrape-and-match.mjs` parser
captures a programme iff its channel attribute is non-empty, both
timestamps parsed, and the start is at most `now + lookahead` (no lower
bound and no Channel Index membership test). -/
theorem claim3_amended_retention (keptIds : List String) (p : ProgRec)
    (nowMs pastHours aheadHours keepWindowTo : Int) (cid : String)
    (st en : Option Int) :
    (keepProg003 keptIds p (windowMin nowMs pastHours) (windowMax nowMs aheadHours)
        = true
      ↔ (p.channel_id ∈ keptIds ∧ jsTrim p.title ≠ "" ∧
          ∃ s, p.start_ts = some s ∧ windowMin nowMs pastHours ≤ s
            ∧ s ≤ windowMax nowMs aheadHours))
    ∧ (keepProg004 keptIds p = true
      ↔ (p.channel_id ∈ keptIds ∧ p.start_ts.isSome = true ∧ p.stop_ts.isSome = true))
    ∧ (keepProgMx cid st en keepWindowTo = true
      ↔ (cid ≠ "" ∧ en.isSome = true ∧ ∃ s, st = some s ∧ s ≤ keepWindowTo)) := by
  refine ⟨?_, ?_, ?_⟩
  · unfold keepProg003
    cases hst : p.start_ts with
    | none => simp [hst]
    | some s =>
      simp only [hst, Bool.and_eq_true, decide_eq_true_eq, bne_iff_ne,
        List.contains, List.elem_iff, Option.some.injEq]
      constructor
      · rintro ⟨⟨hm, ht⟩, h1, h2⟩
        exact ⟨hm, ht, s, rfl, h1, h2⟩
      · rintro ⟨hm, ht, s', hs', h1, h2⟩
        cases hs'
        exact ⟨⟨hm, ht⟩, h1, h2⟩
  · unfold keepProg004
    simp [List.contains, List.elem_iff, and_assoc]
  · unfold keepProgMx
    cases hst : st with
    | none => simp [hst]
    | some s =>
      simp only [hst, Bool.and_eq_true, decide_eq_true_eq, bne_iff_ne,
        Option.some.injEq]
      constructor
      · rintro ⟨hc, hen, hle⟩
        exact ⟨hc, hen, s, rfl, hle⟩
      · rintro ⟨hc, hen, s', hs', hle⟩
        cases hs'
        exact ⟨hc, hen, hle⟩

/-- Witness for the amended C3: a programme of a kept channel with a
title and an in-window start is retained by `part_003`'s test; the same
programme 10 days in the future is not. -/
theorem claim3_amended_retention_witness :
    keepProg003 ["c1"] ⟨"c1", some 3600000, some 7200000, "Show"⟩
        (windowMin 0 0) (windowMax 0 48) = true
    ∧ keepProg004 ["c1"] ⟨"c1", some 3600000, some 7200000, "Show"⟩ = true := by
  constructor
  · exact (claim3_amended_retention ["c1"] ⟨"c1", some 3600000, some 7200000, "Show"⟩
      0 0 48 0 "" none none).1.mpr
      ⟨by decide, by decide, 3600000, rfl, by decide, by decide⟩
  · exact (claim3_amended_retention ["c1"] ⟨"c1", some 3600000, some 7200000, "Show"⟩
      0 0 48 0 "" none none).2.1.mpr ⟨by decide, rfl, rfl⟩

/-- C4: `parseXmltvToISO` matches `YYYYMMDDHHMMSS` with an optional
(whitespace-separated) signed `±HHMM` offset; on a match the returned
instant is the naive wall-clock reading interpreted as UTC minus the
signed offset (`'20250101120000 +0600'` denotes 2025-01-01T06:00Z), a
non-matching string yields `null`, and a `null` start causes only that
programme record to be dropped (`prog` stays unset). -/
theorem claim4_parseXmltv_offset (s : String) (f : XmltvFields) :
    (xmltvMatch s = some f →
        parseXmltvToMs s = some (naiveUtcMs f - offsetDeltaMs f))
    ∧ (xmltvMatch s = none → parseXmltvToMs s = none)
    ∧ parseXmltvToMs "20250101120000 +0600" = some 1735711200000
    ∧ parseXmltvToMs "20250101120000 -0500" = some 1735750800000
    ∧ parseXmltvToMs "20250101120000" = some 1735732800000
    ∧ parseXmltvToMs "2025-01-01 12:00:00" = none
    ∧ (∀ cid en w, keepProgMx cid none en w = false) := by
  refine ⟨?_, ?_, by decide, by decide, by decide, by decide, ?_⟩
  · intro h
    unfold parseXmltvToMs
    rw [h]
  · intro h
    unfold parseXmltvToMs
    rw [h]
  · intro cid en w
    unfold keepProgMx
    simp

/-- Witness for C4: the instant of `'20250101120000 +0600'` equals the
naive reading minus the +06:00 offset, via the general conjunct applied
at the concrete match. -/
theorem claim4_parseXmltv_offset_witness :
    parseXmltvToMs "20250101120000 +0600"
      = some (naiveUtcMs ⟨2025, 1, 1, 12, 0, 0, false, 6, 0, true⟩
          - offsetDeltaMs ⟨2025, 1, 1, 12, 0, 0, false, 6, 0, true⟩) :=
  (claim4_parseXmltv_offset "20250101120000 +0600"
    ⟨2025, 1, 1, 12, 0, 0, false, 6, 0, true⟩).1 (by decide)

/-- C5: `bestFromMaster` returns the URI of the variant with the largest
BANDWIDTH, resolved against the master's URL: any returned URL belongs to
a collected variant of maximal bandwidth; a body contributing no variants
yields `null`; and on the concrete {800000, 3000000, 1200000} master the
3000000 variant's absolute URL is returned, while a plain media playlist
yields `null`. -/
theorem claim5_bestFromMaster (base text : String) :
    (∀ u, bestFromMaster base text = some u →
        ∃ v ∈ collectVariants base (splitLinesJs text), u = v.url ∧
          ∀ w ∈ collectVariants base (splitLinesJs text), w.bw ≤ v.bw)
    ∧ (collectVariants base (splitLinesJs text) = [] →
        bestFromMaster base text = none)
    ∧ bestFromMaster "https://example.com/live/master.m3u8"
        "#EXTM3U\n#EXT-X-STREAM-INF:BANDWIDTH=800000,RESOLUTION=640x360\nlow.m3u8\n#EXT-X-STREAM-INF:BANDWIDTH=3000000,RESOLUTION=1920x1080\nhigh.m3u8\n#EXT-X-STREAM-INF:BANDWIDTH=1200000\nmid.m3u8\n"
      = some "https://example.com/live/high.m3u8"
    ∧ bestFromMaster "https://example.com/live/master.m3u8"
        "#EXTM3U\n#EXTINF:10,\nseg1.ts\nseg2.ts\n" = none := by
  refine ⟨?_, ?_, by decide, by decide⟩
  · intro u hu
    unfold bestFromMaster at hu
    rw [Option.map_eq_some'] at hu
    obtain ⟨v, hv, hvu⟩ := hu
    obtain ⟨hmem, hmax⟩ := sortDesc_head_max _ v hv
    exact ⟨v, hmem, hvu.symm, hmax⟩
  · intro h
    unfold bestFromMaster
    rw [h]
    rfl

/-- Witness for C5: the general maximality conjunct applied to the
concrete three-variant master playlist. -/
theorem claim5_bestFromMaster_witness :
    ∃ v ∈ collectVariants "https://example.com/live/master.m3u8"
        (splitLinesJs "#EXTM3U\n#EXT-X-STREAM-INF:BANDWIDTH=800000,RESOLUTION=640x360\nlow.m3u8\n#EXT-X-STREAM-INF:BANDWIDTH=3000000,RESOLUTION=1920x1080\nhigh.m3u8\n#EXT-X-STREAM-INF:BANDWIDTH=1200000\nmid.m3u8\n"),
      "https://example.com/live/high.m3u8" = v.url ∧
        ∀ w ∈ collectVariants "https://example.com/live/master.m3u8"
          (splitLinesJs "#EXTM3U\n#EXT-X-STREAM-INF:BANDWIDTH=800000,RESOLUTION=640x360\nlow.m3u8\n#EXT-X-STREAM-INF:BANDWIDTH=3000000,RESOLUTION=1920x1080\nhigh.m3u8\n#EXT-X-STREAM-INF:BANDWIDTH=1200000\nmid.m3u8\n"),
          w.bw ≤ v.bw :=
  (claim5_bestFromMaster "https://example.com/live/master.m3u8"
    "#EXTM3U\n#EXT-X-STREAM-INF:BANDWIDTH=800000,RESOLUTION=640x360\nlow.m3u8\n#EXT-X-STREAM-INF:BANDWIDTH=3000000,RESOLUTION=1920x1080\nhigh.m3u8\n#EXT-X-STREAM-INF:BANDWIDTH=1200000\nmid.m3u8\n").1
    "https://example.com/live/high.m3u8" (by decide)

/-- C6 counterexample: `probePlaylist` (`latam-iptvcat.mjs` 622–640)
accepts a successful response whose body lacks the `#EXTM3U` signature
whenever the `content-type` header declares an HLS playlist
(line 635, reason `ct-hls`) — so "absence of the required #EXTM3U
signature in the fetched body results in a rejection value" is false for
the cited probe. -/
theorem claim6_counterexample :
    hasExtM3U "<html>not a playlist</html>" = false
    ∧ probePlaylist "https://x/a.m3u8"
        ⟨true, "application/vnd.apple.mpegurl", "https://x/a.m3u8",
          "<html>not a playlist</html>"⟩ fetchFailed
      = ⟨true, "https://x/a.m3u8", "ct-hls"⟩ := by
  refine ⟨by decide, by decide⟩

/-- C6 as amended: a probe call is total over its fetch outcomes and a
network error, a timeout abort (both caught inside the fetch wrapper),
or a non-success status always yield a rejection value.  `probeM3U8`
(`part_005`) additionally rejects whenever the body lacks `#EXTM3U` and
accepts only a successful signed response.  `probePlaylist`
(`latam-iptvcat.mjs` 622–640), however, accepts a signature-less body
when the content-type declares an HLS playlist (`ct-hls`); a successful
signed master playlist makes it re-fetch the best variant and accept iff
that second fetch is successful and signed (`master-best`); a successful
signed media playlist is accepted (`media-extm3u`); only when the
signature is missing AND the content-type test fails does it reject
(`no-extm3u`). -/
theorem claim6_amended_probe_reject (err url rurl body : String)
    (r r2 : FetchTextResult) :
    probeM3U8 (.failure err) = false
    ∧ probeM3U8 (.response false rurl body) = false
    ∧ (hasExtM3U body = false → probeM3U8 (.response true rurl body) = false)
    ∧ (∀ o : FetchOutcome, probeM3U8 o = true →
        ∃ ok u b, o = .response ok u b ∧ ok = true ∧ hasExtM3U b = true)
    ∧ (probePlaylist url fetchFailed r2).ok = false
    ∧ (r.ok = false → probePlaylist url r r2 = ⟨false, url, "no-extm3u"⟩)
    ∧ (r.ok = true → hasExtM3U r.txt = false → ctHls r.ct = false →
        probePlaylist url r r2 = ⟨false, url, "no-extm3u"⟩)
    ∧ (r.ok = true → hasExtM3U r.txt = false → ctHls r.ct = true →
        probePlaylist url r r2
          = ⟨true, if r.url = "" then url else r.url, "ct-hls"⟩)
    ∧ (r.ok = true → hasExtM3U r.txt = true → hasStreamInf r.txt = true →
        probePlaylist url r r2
          = ⟨r2.ok && hasExtM3U r2.txt,
              if r2.url = "" then (bestFromMaster url r.txt).getD url else r2.url,
              "master-best"⟩)
    ∧ (r.ok = true → hasExtM3U r.txt = true → hasStreamInf r.txt = false →
        probePlaylist url r r2
          = ⟨true, if r.url = "" then url else r.url, "media-extm3u"⟩) := by
  refine ⟨rfl, rfl, ?_, ?_, ?_, ?_, ?_, ?_, ?_, ?_⟩
  · intro h
    unfold probeM3U8
    simp [h]
  · intro o ho
    cases o with
    | failure e => exact Bool.noConfusion ho
    | response ok u b =>
      unfold probeM3U8 at ho
      cases ok with
      | false => exact Bool.noConfusion ho
      | true => exact ⟨true, u, b, rfl, rfl, by simpa using ho⟩
  · unfold probePlaylist fetchFailed
    simp [hasExtM3U, ctHls, jsLowerStr, strHasSub, subOccurs]
  · intro hok
    unfold probePlaylist
    simp [hok]
  · intro hok hsig hct
    unfold probePlaylist
    simp [hok, hsig, hct]
  · intro hok hsig hct
    unfold probePlaylist
    simp [hok, hsig, hct]
  · intro hok hsig hinf
    unfold probePlaylist
    simp [hok, hsig, hinf]
  · intro hok hsig hinf
    unfold probePlaylist
    simp [hok, hsig, hinf]

/-- Witness for the amended C6: a timed-out / failed fetch and a
successful unsigned, non-HLS-typed response are both rejected; a
successful unsigned response typed `application/vnd.apple.mpegurl` is
accepted with reason `ct-hls`. -/
theorem claim6_amended_probe_reject_witness :
    probeM3U8 (.response true "https://x/a.m3u8" "<html>not a playlist</html>") = false
    ∧ probePlaylist "https://x/a.m3u8"
        ⟨true, "text/html", "https://x/a.m3u8", "<html>not a playlist</html>"⟩
        fetchFailed
      = ⟨false, "https://x/a.m3u8", "no-extm3u"⟩
    ∧ probePlaylist "https://x/a.m3u8"
        ⟨true, "application/vnd.apple.mpegurl", "https://x/a.m3u8",
          "<html>not a playlist</html>"⟩ fetchFailed
      = ⟨true, "https://x/a.m3u8", "ct-hls"⟩ := by
  refine ⟨?_, ?_, ?_⟩
  · exact (claim6_amended_probe_reject "e" "https://x/a.m3u8" "https://x/a.m3u8"
      "<html>not a playlist</html>" fetchFailed fetchFailed).2.2.1 (by decide)
  · exact (claim6_amended_probe_reject "e" "https://x/a.m3u8" "https://x/a.m3u8"
      "<html>not a playlist</html>"
      ⟨true, "text/html", "https://x/a.m3u8", "<html>not a playlist</html>"⟩
      fetchFailed).2.2.2.2.2.2.1 rfl (by decide) (by decide)
  · exact (claim6_amended_probe_reject "e" "https://x/a.m3u8" "https://x/a.m3u8"
      "<html>not a playlist</html>"
      ⟨true, "application/vnd.apple.mpegurl", "https://x/a.m3u8",
        "<html>not a playlist</html>"⟩
      fetchFailed).2.2.2.2.2.2.2.1 rfl (by decide) (by decide)

/-- C7 counterexample: `saveRows` of `part_005` falls back to a plain
insert on ANY upsert error — here a permission error that matches
neither `savePrograms` error-class regex — so "the fallback runs if and
only if the error class is the missing-uniqueness one" is false for that
writer. -/
theorem claim7_counterexample :
    (saveRowsBatch005 (some "permission denied for table mx_channels") none).1 = true
    ∧ noUniqueErr002 "permission denied for table mx_channels" = false
    ∧ noUniqueErrMx "permission denied for table mx_channels" = false := by
  refine ⟨rfl, by decide, by decide⟩

/-- C7 as amended: in `savePrograms` (`part_002` and
`mx-scrape-and-match.mjs`) the single insert fallback runs iff the upsert
error message matches the missing-uniqueness class
(`no unique` / `no exclusion [constraint]`, case-insensitive), the batch
ends error-free iff the upsert succeeded or the class-matching fallback
insert succeeded, and a genuine failure of a different class is reported
without any fallback; in `saveRows` (`part_005`) the insert fallback runs
on every upsert error, whatever its class. -/
theorem claim7_amended_fallback (upsertErr insertErr : Option String) :
    ((saveProgramsBatch002 upsertErr insertErr).1 = true
      ↔ ∃ m, upsertErr = some m ∧ noUniqueErr002 m = true)
    ∧ ((saveProgramsBatch002 upsertErr insertErr).2 = none
      ↔ (upsertErr = none
          ∨ ∃ m, upsertErr = some m ∧ noUniqueErr002 m = true ∧ insertErr = none))
    ∧ (∀ m, upsertErr = some m → noUniqueErr002 m = false →
        saveProgramsBatch002 upsertErr insertErr = (false, some m))
    ∧ ((saveProgramsBatchMx upsertErr insertErr).1 = true
      ↔ ∃ m, upsertErr = some m ∧ noUniqueErrMx m = true)
    ∧ ((saveRowsBatch005 upsertErr insertErr).1 = true ↔ upsertErr.isSome = true) := by
  refine ⟨?_, ?_, ?_, ?_, ?_⟩
  · cases upsertErr with
    | none => simp [saveProgramsBatch002]
    | some m =>
      unfold saveProgramsBatch002
      by_cases h : noUniqueErr002 m = true
      · simp [h]
      · simp [h]
  · cases upsertErr with
    | none => simp [saveProgramsBatch002]
    | some m =>
      unfold saveProgramsBatch002
      by_cases h : noUniqueErr002 m = true
      · simp only [h, if_true]
        constructor
        · intro hi
          exact Or.inr ⟨m, rfl, h, hi⟩
        · rintro (hc | ⟨m', hm', _, hi⟩)
          · exact Option.noConfusion hc
          · cases hm'; exact hi
      · simp only [h, if_false]
        constructor
        · intro hc; exact Option.noConfusion hc
        · rintro (hc | ⟨m', hm', hcl, _⟩)
          · exact Option.noConfusion hc
          · cases hm'
            rw [hcl] at h
            exact absurd rfl h
  · intro m hm hcl
    subst hm
    unfold saveProgramsBatch002
    simp [hcl]
  · cases upsertErr with
    | none => simp [saveProgramsBatchMx]
    | some m =>
      unfold saveProgramsBatchMx
      by_cases h : noUniqueErrMx m = true
      · simp [h]
      · simp [h]
  · cases upsertErr with
    | none => simp [saveRowsBatch005]
    | some m => simp [saveRowsBatch005]

/-- Witness for the amended C7: a missing-uniqueness upsert error
triggers the fallback even when the insert then fails (and the failure
is still reported); a class-mismatched error is reported without
fallback. -/
theorem claim7_amended_fallback_witness :
    (saveProgramsBatch002
        (some "there is no unique or exclusion constraint matching the ON CONFLICT specification")
        (some "null value in column violates not-null constraint")).1 = true
    ∧ saveProgramsBatch002 (some "permission denied for table epg_programs") none
        = (false, some "permission denied for table epg_programs") := by
  constructor
  · exact (claim7_amended_fallback
      (some "there is no unique or exclusion constraint matching the ON CONFLICT specification")
      (some "null value in column violates not-null constraint")).1.mpr
      ⟨"there is no unique or exclusion constraint matching the ON CONFLICT specification",
        rfl, by decide⟩
  · exact (claim7_amended_fallback (some "permission denied for table epg_programs")
      none).2.2.1 "permission denied for table epg_programs" rfl (by decide)

/-- C8: every text event preserves the invariant "accumulated
display-name length ≤ `MAX_NAME_CHARS`" (excess characters are silently
truncated), so after any sequence of text events the accumulator length
and the final joined-and-trimmed display-name string never exceed the
cap. -/
theorem claim8_display_name_cap (cap : Nat) (events : List String)
    (st : DispAcc) (t : String) :
    (st.len ≤ cap → (st.chunks.map String.length).sum = st.len →
        (dispText cap st t).len ≤ cap)
    ∧ (events.foldl (dispText cap) dispInit).len ≤ cap
    ∧ (dispFinal (events.foldl (dispText cap) dispInit)).length ≤ cap := by
  have hfold := dispFold_inv cap events dispInit (Nat.zero_le cap) rfl
  refine ⟨?_, hfold.1, ?_⟩
  · intro h1 h2
    exact (dispText_inv cap st t h1 h2).1
  · unfold dispFinal
    calc (jsTrim (strJoin (events.foldl (dispText cap) dispInit).chunks)).length
        ≤ (strJoin (events.foldl (dispText cap) dispInit).chunks).length :=
          jsTrim_length_le _
      _ = ((events.foldl (dispText cap) dispInit).chunks.map String.length).sum :=
          strJoin_length _
      _ = (events.foldl (dispText cap) dispInit).len := hfold.2
      _ ≤ cap := hfold.1

/-- Witness for C8: feeding three 300-character chunks to a cap-512
accumulator keeps the length within the cap, and a single event on a
valid state preserves the bound. -/
theorem claim8_display_name_cap_witness :
    (dispText 512 dispInit ⟨List.replicate 700 'x'⟩).len ≤ 512
    ∧ ([⟨List.replicate 300 'a'⟩, ⟨List.replicate 300 'b'⟩,
        (⟨List.replicate 300 'c'⟩ : String)].foldl (dispText 512) dispInit).len ≤ 512 := by
  constructor
  · exact (claim8_display_name_cap 512 [] dispInit ⟨List.replicate 700 'x'⟩).1
      (by decide) rfl
  · exact (claim8_display_name_cap 512
      [⟨List.replicate 300 'a'⟩, ⟨List.replicate 300 'b'⟩, ⟨List.replicate 300 'c'⟩]
      dispInit "").2.1

end Epg
